import Mathlib

/-!
Verification of the univariate interpolation module (nearest-neighbor, linear,
natural cubic spline and Akima spline interpolators, plus a batch cubic-spline
query), shallowly embedded from `src/CommonsMathInterpolation.ts`.

IEEE-754 doubles are modelled as `Option ℚ`: `some q` is the finite value `q`
(the properties under verification are stated over exact arithmetic) and
`none` models NaN.  Every comparison involving `none` is false, and arithmetic
on `none` yields `none`, matching NaN semantics.  Division by zero yields a
non-finite IEEE value (±∞ or NaN); it is collapsed to `none` here, and no code
path verified below divides by zero.  Thrown JavaScript errors are modelled
with `Except Err`; returned closures become Lean functions.
-/

namespace CMI

/-- A floating-point number: a finite rational or NaN (`none`). -/
abbrev Fl := Option ℚ

/-- The `<` comparison; false whenever an operand is NaN. -/
def flt : Fl → Fl → Prop
  | some a, some b => a < b
  | _, _ => False

instance instDecidableFlt : ∀ a b : Fl, Decidable (flt a b)
  | some a, some b => inferInstanceAs (Decidable (a < b))
  | some _, none => isFalse (fun h => h.elim)
  | none, some _ => isFalse (fun h => h.elim)
  | none, none => isFalse (fun h => h.elim)

/-- The `>` comparison; false whenever an operand is NaN. -/
def fgt : Fl → Fl → Prop
  | some a, some b => b < a
  | _, _ => False

instance instDecidableFgt : ∀ a b : Fl, Decidable (fgt a b)
  | some a, some b => inferInstanceAs (Decidable (b < a))
  | some _, none => isFalse (fun h => h.elim)
  | none, some _ => isFalse (fun h => h.elim)
  | none, none => isFalse (fun h => h.elim)

/-- The `<=` comparison; false whenever an operand is NaN. -/
def fle : Fl → Fl → Prop
  | some a, some b => a ≤ b
  | _, _ => False

instance instDecidableFle : ∀ a b : Fl, Decidable (fle a b)
  | some a, some b => inferInstanceAs (Decidable (a ≤ b))
  | some _, none => isFalse (fun h => h.elim)
  | none, some _ => isFalse (fun h => h.elim)
  | none, none => isFalse (fun h => h.elim)

/-- The `==` comparison; false whenever an operand is NaN. -/
def feq : Fl → Fl → Prop
  | some a, some b => a = b
  | _, _ => False

instance instDecidableFeq : ∀ a b : Fl, Decidable (feq a b)
  | some a, some b => inferInstanceAs (Decidable (a = b))
  | some _, none => isFalse (fun h => h.elim)
  | none, some _ => isFalse (fun h => h.elim)
  | none, none => isFalse (fun h => h.elim)

/-- Addition; NaN-propagating. -/
def fadd : Fl → Fl → Fl
  | some a, some b => some (a + b)
  | _, _ => none

/-- Subtraction; NaN-propagating. -/
def fsub : Fl → Fl → Fl
  | some a, some b => some (a - b)
  | _, _ => none

/-- Multiplication; NaN-propagating. -/
def fmul : Fl → Fl → Fl
  | some a, some b => some (a * b)
  | _, _ => none

/-- Division; NaN-propagating.  A zero divisor gives a non-finite IEEE result,
collapsed to `none`; no verified code path divides by zero. -/
def fdiv : Fl → Fl → Fl
  | some a, some b => if b = 0 then none else some (a / b)
  | _, _ => none

/-- Math.abs; NaN-propagating. -/
def fabs : Fl → Fl
  | some a => some |a|
  | none => none

/-- The error taxonomy of the module (each constructor corresponds to one of
the thrown `Error` messages in the source). -/
inductive Err where
  | dimensionMismatch
  | insufficientPoints
  | insufficientKnots
  | order
  | emptyCoefficients
  | invalidValue
  deriving DecidableEq

/-- Loop of `MathArrays_checkOrder`: `previous` is the value seen last, the
list is the rest of the array. -/
def checkOrderGo : Fl → List Fl → Except Err Unit
  | _, [] => .ok ()
  | previous, v :: rest =>
    if fle v previous then .error .order else checkOrderGo v rest

/-- Checks that the given array is sorted in strictly increasing order
(`MathArrays_checkOrder` in the source; throws the non-monotonic-sequence
error, modelled `Err.order`). -/
def MathArrays_checkOrder : List Fl → Except Err Unit
  | [] => .ok ()
  | v :: rest => checkOrderGo v rest

/-- Loop of `Arrays_binarySearch`.  `high1` stands for the source's inclusive
bound `high` plus one, so the loop guard `low <= high` becomes `low < high1`
and `high = mid - 1` becomes `high1 = mid`; with `low ≤ high` the source's
`(low + high) >>> 1` is `(low + high1 - 1) / 2`.  The loop strictly shrinks
`high1 - low`, so any `fuel ≥ high1 - low` is enough; the fuel-exhausted case
is unreachable for the fuel passed by `Arrays_binarySearch`. -/
def bsGo (a : List Fl) (key : Fl) : Nat → Nat → Nat → Except Err Int
  | 0, low, _ => .ok (-(low + 1 : Int))
  | fuel + 1, low, high1 =>
    if low < high1 then
      let mid := (low + high1 - 1) / 2
      let midVal := a.getD mid none
      if flt midVal key then bsGo a key fuel (mid + 1) high1
      else if fgt midVal key then bsGo a key fuel low mid
      else if feq midVal key then .ok (mid : Int)
      else .error .invalidValue
    else .ok (-(low + 1 : Int))

/-- Corresponds to `java.util.Arrays.binarySearch()`: the index of the search
key if present, otherwise `-(insertionPoint + 1)`; throws the
invalid-number error (`Err.invalidValue`) when a comparison decides neither
less-than, greater-than nor equality (a NaN was inspected). -/
def Arrays_binarySearch (a : List Fl) (key : Fl) : Except Err Int :=
  bsGo a key a.length 0 a.length

/-- Drops the leading zero coefficients of a reversed
(highest-degree-first) coefficient list while more than one coefficient
remains: the source's `while (n > 1 && c2[n - 1] == 0) n--`. -/
def trimRev : List Fl → List Fl
  | v :: w :: rest => if feq v (some 0) then trimRev (w :: rest) else v :: w :: rest
  | l => l

/-- Horner evaluation over a reversed (highest-degree-first) coefficient list:
`v = c2[n-1]; for i = n-2 .. 0: v = x*v + c2[i]`. -/
def hornerRev (x : Fl) : List Fl → Fl
  | [] => none
  | v :: rest => rest.foldl (fun acc c => fadd (fmul x acc) c) v

/-- The closure returned by `createPolynomialFunction`, over the already
trimmed reversed coefficient list. -/
def polyEval (r : List Fl) (x : Fl) : Fl := hornerRev x r

/-- Constructs a polynomial function with the given coefficients, constant
term first (`createPolynomialFunction` in the source; the `.slice()` clone is
a value copy here). -/
def createPolynomialFunction (c : List Fl) : Except Err (Fl → Fl) :=
  if c.length = 0 then .error .emptyCoefficients
  else .ok (polyEval (trimRev c.reverse))

/-- The closure returned by `createPolynomialSplineFunction`: binary-search
the knots, translate a not-found result `-(insertionPoint+1)` to
`insertionPoint - 1`, clamp into `[0, polynomials.length - 1]`, and evaluate
that segment's polynomial at `x - knot[i]`. -/
def splineEval (knots2 : List Fl) (polynomials : List (Fl → Fl)) (x : Fl) : Except Err Fl :=
  match Arrays_binarySearch knots2 x with
  | .error e => .error e
  | .ok r =>
    let i : Int := if r < 0 then -r - 2 else r
    let i2 : Nat := (max 0 (min i ((polynomials.length : Int) - 1))).toNat
    .ok ((polynomials.getD i2 (fun _ => none)) (fsub x (knots2.getD i2 none)))

/-- Constructs a polynomial spline function from knots and per-segment
polynomials (`createPolynomialSplineFunction` in the source; the knot clone is
a value copy here). -/
def createPolynomialSplineFunction (knots : List Fl) (polynomials : List (Fl → Fl)) :
    Except Err (Fl → Except Err Fl) :=
  if knots.length < 2 then .error .insufficientKnots
  else if knots.length - 1 ≠ polynomials.length then .error .dimensionMismatch
  else
    match MathArrays_checkOrder knots with
    | .error e => .error e
    | .ok _ => .ok (splineEval knots polynomials)

/-- The closure returned by `createNearestNeighborInterpolator` for `n ≥ 2`
points. -/
def nearestEval (xvals2 yvals2 : List Fl) (x : Fl) : Except Err Fl :=
  match Arrays_binarySearch xvals2 x with
  | .error e => .error e
  | .ok i0 =>
    if 0 ≤ i0 then .ok (yvals2.getD i0.toNat none)
    else
      let i : Int := -i0 - 1
      if i = 0 then .ok (yvals2.getD 0 none)
      else if (xvals2.length : Int) ≤ i then .ok (yvals2.getD (xvals2.length - 1) none)
      else
        let d := fsub x (xvals2.getD (i - 1).toNat none)
        let w := fsub (xvals2.getD i.toNat none) (xvals2.getD (i - 1).toNat none)
        .ok (if flt (fadd d d) w then yvals2.getD (i - 1).toNat none
             else yvals2.getD i.toNat none)

/-- Returns a nearest neighbor interpolating function for a data set
(`createNearestNeighborInterpolator` in the source; the input clones are
value copies here). -/
def createNearestNeighborInterpolator (xvals yvals : List Fl) :
    Except Err (Fl → Except Err Fl) :=
  if xvals.length ≠ yvals.length then .error .dimensionMismatch
  else if xvals.length = 0 then .ok (fun _ => .ok none)
  else if xvals.length = 1 then .ok (fun _ => .ok (yvals.getD 0 none))
  else
    match MathArrays_checkOrder xvals with
    | .error e => .error e
    | .ok _ => .ok (nearestEval xvals yvals)

/-- Returns a linear interpolating function for a data set
(`createLinearInterpolator` in the source). -/
def createLinearInterpolator (x y : List Fl) : Except Err (Fl → Except Err Fl) :=
  if x.length ≠ y.length then .error .dimensionMismatch
  else if x.length < 2 then .error .insufficientPoints
  else
    match MathArrays_checkOrder x with
    | .error e => .error e
    | .ok _ =>
      let n := x.length - 1
      let m := (List.range n).map (fun i =>
        fdiv (fsub (y.getD (i + 1) none) (y.getD i none))
             (fsub (x.getD (i + 1) none) (x.getD i none)))
      match (List.range n).mapM
          (fun i => createPolynomialFunction [y.getD i none, m.getD i none]) with
      | .error e => .error e
      | .ok polynomials => createPolynomialSplineFunction x polynomials

/-- Forward sweep of the tridiagonal (Thomas) solve in
`computeCubicPolyCoefficients`: `muz x y h i = (mu[i], z[i])`, with
`mu[0] = z[0] = 0`; the step case is the source's loop body at index `i+1`. -/
def muz (x y h : List Fl) : Nat → Fl × Fl
  | 0 => (some 0, some 0)
  | i + 1 =>
    let p := muz x y h i
    let g := fsub (fmul (some 2) (fsub (x.getD (i + 2) none) (x.getD i none)))
                  (fmul (h.getD i none) p.1)
    let mui := fdiv (h.getD (i + 1) none) g
    let zi := fdiv (fsub (fdiv (fmul (some 3)
        (fadd (fsub (fmul (y.getD (i + 2) none) (h.getD i none))
                    (fmul (y.getD (i + 1) none)
                          (fsub (x.getD (i + 2) none) (x.getD i none))))
              (fmul (y.getD i none) (h.getD (i + 1) none))))
        (fmul (h.getD i none) (h.getD (i + 1) none)))
        (fmul (h.getD i none) p.2)) g
    (mui, zi)

/-- Back-substitution of the solve: `cIdx x y h n k` is `c[n - k]`, so `k = 0`
is the boundary condition `c[n] = 0` and the step case is the source's
`c[j] = z[j] - mu[j] * c[j + 1]`. -/
def cIdx (x y h : List Fl) (n : Nat) : Nat → Fl
  | 0 => some 0
  | k + 1 =>
    fsub (muz x y h (n - (k + 1))).2
         (fmul (muz x y h (n - (k + 1))).1 (cIdx x y h n k))

/-- The interval-width array `h` of `computeCubicPolyCoefficients`:
`h[i] = x[i+1] - x[i]` for the `n` intervals. -/
def cubicH (x : List Fl) (n : ℕ) : List Fl :=
  (List.range n).map (fun i => fsub (x.getD (i + 1) none) (x.getD i none))

/-- The second-derivative coefficient array `c` of
`computeCubicPolyCoefficients` (size `n + 1`, `c[n] = 0`). -/
def cubicC (x y : List Fl) (n : ℕ) : List Fl :=
  (List.range (n + 1)).map (fun j => cIdx x y (cubicH x n) n (n - j))

/-- The linear coefficient array `b` of `computeCubicPolyCoefficients`:
`b[j] = (y[j+1]-y[j])/h[j] - h[j]*(c[j+1]+2*c[j])/3`. -/
def cubicB (x y : List Fl) (n : ℕ) : List Fl :=
  (List.range n).map (fun j =>
    fsub (fdiv (fsub (y.getD (j + 1) none) (y.getD j none)) ((cubicH x n).getD j none))
         (fdiv (fmul ((cubicH x n).getD j none)
                     (fadd ((cubicC x y n).getD (j + 1) none)
                           (fmul (some 2) ((cubicC x y n).getD j none))))
               (some 3)))

/-- The cubic coefficient array `d` of `computeCubicPolyCoefficients`:
`d[j] = (c[j+1] - c[j]) / (3 * h[j])`. -/
def cubicD (x y : List Fl) (n : ℕ) : List Fl :=
  (List.range n).map (fun j =>
    fdiv (fsub ((cubicC x y n).getD (j + 1) none) ((cubicC x y n).getD j none))
         (fmul (some 3) ((cubicH x n).getD j none)))

/-- Shared code of the two cubic interpolation entry points
(`computeCubicPolyCoefficients` in the source): input checks, then the
tridiagonal solve; returns the arrays `(b, c, d)` exactly as the source sizes
them (`b` and `d` of length `n`, `c` of length `n + 1`). -/
def computeCubicPolyCoefficients (x y : List Fl) :
    Except Err (List Fl × List Fl × List Fl) :=
  if x.length ≠ y.length then .error .dimensionMismatch
  else if x.length < 3 then .error .insufficientPoints
  else
    match MathArrays_checkOrder x with
    | .error e => .error e
    | .ok _ =>
      .ok (cubicB x y (x.length - 1), cubicC x y (x.length - 1), cubicD x y (x.length - 1))

/-- Returns a natural cubic spline interpolating function for a data set
(`createCubicSplineInterpolator` in the source). -/
def createCubicSplineInterpolator (x y : List Fl) : Except Err (Fl → Except Err Fl) :=
  match computeCubicPolyCoefficients x y with
  | .error e => .error e
  | .ok bcd =>
    let n := x.length - 1
    match (List.range n).mapM (fun i => createPolynomialFunction
        [y.getD i none, bcd.1.getD i none, bcd.2.1.getD i none, bcd.2.2.getD i none]) with
    | .error e => .error e
    | .ok polynomials => createPolynomialSplineFunction x polynomials

/-- Number.EPSILON, the machine epsilon 2^-52 of IEEE doubles. -/
def EPSILON : ℚ := 1 / 4503599627370496

/-- Three point differentiation helper (`differentiateThreePoint` in the
source; note the source reads the y-values into `x0`, `x1`, `x2`). -/
def differentiateThreePoint (xvals yvals : List Fl)
    (indexOfDifferentiation indexOfFirstSample indexOfSecondsample indexOfThirdSample : Nat) : Fl :=
  let x0 := yvals.getD indexOfFirstSample none
  let x1 := yvals.getD indexOfSecondsample none
  let x2 := yvals.getD indexOfThirdSample none
  let t := fsub (xvals.getD indexOfDifferentiation none) (xvals.getD indexOfFirstSample none)
  let t1 := fsub (xvals.getD indexOfSecondsample none) (xvals.getD indexOfFirstSample none)
  let t2 := fsub (xvals.getD indexOfThirdSample none) (xvals.getD indexOfFirstSample none)
  let a := fdiv (fsub (fsub x2 x0) (fmul (fdiv t2 t1) (fsub x1 x0)))
                (fsub (fmul t2 t2) (fmul t1 t2))
  let b := fdiv (fsub (fsub x1 x0) (fmul (fmul a t1) t1)) t1
  fadd (fmul (fmul (some 2) a) t) b

/-- Hermite cubic spline construction from values and first derivatives
(`interpolateHermiteSorted` in the source). -/
def interpolateHermiteSorted (xvals yvals firstDerivatives : List Fl) :
    Except Err (Fl → Except Err Fl) :=
  if xvals.length ≠ yvals.length ∨ xvals.length ≠ firstDerivatives.length then
    .error .dimensionMismatch
  else if xvals.length < 2 then .error .insufficientPoints
  else
    match (List.range (xvals.length - 1)).mapM (fun i =>
      let w := fsub (xvals.getD (i + 1) none) (xvals.getD i none)
      let w2 := fmul w w
      let yv := yvals.getD i none
      let yvP := yvals.getD (i + 1) none
      let fd := firstDerivatives.getD i none
      let fdP := firstDerivatives.getD (i + 1) none
      createPolynomialFunction [yv, fd,
        fdiv (fsub (fsub (fdiv (fmul (some 3) (fsub yvP yv)) w) (fmul (some 2) fd)) fdP) w,
        fdiv (fadd (fadd (fdiv (fmul (some 2) (fsub yv yvP)) w) fd) fdP) w2]) with
    | .error e => .error e
    | .ok polynomials => createPolynomialSplineFunction xvals polynomials

/-- The secant-slope array `differences` of `createAkimaSplineInterpolator`
(size `n - 1`). -/
def akimaDifferences (xvals yvals : List Fl) : List Fl :=
  (List.range (xvals.length - 1)).map (fun i =>
    fdiv (fsub (yvals.getD (i + 1) none) (yvals.getD i none))
         (fsub (xvals.getD (i + 1) none) (xvals.getD i none)))

/-- The `weights` array of `createAkimaSplineInterpolator`: a
zero-initialized Float64Array of size `n - 1` whose slots from index 1 hold
`|differences[i] - differences[i-1]|`; the untouched slot 0 stays 0. -/
def akimaWeights (xvals yvals : List Fl) : List Fl :=
  (List.range (xvals.length - 1)).map (fun i =>
    if i = 0 then some 0
    else fabs (fsub ((akimaDifferences xvals yvals).getD i none)
                    ((akimaDifferences xvals yvals).getD (i - 1) none)))

/-- The `firstDerivatives` array of `createAkimaSplineInterpolator` (size
`n`): each slot holds the last value written to it — the interior loop over
`[2, n-2)` writes the weighted blend (or the degenerate-weight fallback), and
the four endpoint writes at `0`, `1`, `n-2`, `n-1` (disjoint from the loop's
range) use three-point differentiation. -/
def akimaFirstDerivatives (xvals yvals : List Fl) : List Fl :=
  (List.range xvals.length).map (fun i =>
    if i = 0 then differentiateThreePoint xvals yvals 0 0 1 2
    else if i = 1 then differentiateThreePoint xvals yvals 1 0 1 2
    else if i = xvals.length - 2 then
      differentiateThreePoint xvals yvals (xvals.length - 2) (xvals.length - 3)
        (xvals.length - 2) (xvals.length - 1)
    else if i = xvals.length - 1 then
      differentiateThreePoint xvals yvals (xvals.length - 1) (xvals.length - 3)
        (xvals.length - 2) (xvals.length - 1)
    else
      if flt (fabs ((akimaWeights xvals yvals).getD (i + 1) none)) (some EPSILON) ∧
         flt (fabs ((akimaWeights xvals yvals).getD (i - 1) none)) (some EPSILON) then
        fdiv (fadd (fmul (fsub (xvals.getD (i + 1) none) (xvals.getD i none))
                         ((akimaDifferences xvals yvals).getD (i - 1) none))
                   (fmul (fsub (xvals.getD i none) (xvals.getD (i - 1) none))
                         ((akimaDifferences xvals yvals).getD i none)))
             (fsub (xvals.getD (i + 1) none) (xvals.getD (i - 1) none))
      else
        fdiv (fadd (fmul ((akimaWeights xvals yvals).getD (i + 1) none)
                         ((akimaDifferences xvals yvals).getD (i - 1) none))
                   (fmul ((akimaWeights xvals yvals).getD (i - 1) none)
                         ((akimaDifferences xvals yvals).getD i none)))
             (fadd ((akimaWeights xvals yvals).getD (i + 1) none)
                   ((akimaWeights xvals yvals).getD (i - 1) none)))

/-- Returns an Akima cubic spline interpolating function for a data set
(`createAkimaSplineInterpolator` in the source). -/
def createAkimaSplineInterpolator (xvals yvals : List Fl) :
    Except Err (Fl → Except Err Fl) :=
  if xvals.length ≠ yvals.length then .error .dimensionMismatch
  else if xvals.length < 5 then .error .insufficientPoints
  else
    match MathArrays_checkOrder xvals with
    | .error e => .error e
    | .ok _ => interpolateHermiteSorted xvals yvals (akimaFirstDerivatives xvals yvals)

/-- JS sparse-array write `l[i] = v`: slots that were never written are holes,
modelled by padding with `pad`. -/
def setPad {α : Type} (l : List α) (i : Nat) (pad v : α) : List α :=
  if i < l.length then l.set i v
  else l ++ List.replicate (i - l.length) pad ++ [v]

/-- The bucketing loop of `cubicSplineInterpolate`: for each query index,
locate the owning segment (binary search result translated and clamped as in
the spline evaluator) and store the query value in a sparse array of sparse
arrays, outer-indexed by segment, inner-indexed by original query index. -/
def buildSampleArr (x : List Fl) (n : Nat) (xq : List Fl) :
    Except Err (List (Option (List (Option Fl)))) :=
  (List.range xq.length).foldlM (fun sampleArr i =>
    match Arrays_binarySearch x (xq.getD i none) with
    | .error e => .error e
    | .ok r =>
      let idx : Int := if r < 0 then -r - 2 else r
      let idx2 : Nat := (max 0 (min idx ((n : Int) - 1))).toNat
      let sub := (sampleArr.getD idx2 none).getD []
      pure (setPad sampleArr idx2 none (some (setPad sub i none (some (xq.getD i none))))))
    []

/-- Batch cubic spline interpolation (`cubicSplineInterpolate` in the source).
JS sparse arrays become lists of `Option` entries (`none` is a hole) and
`forEach` skips holes.  In the inner `forEach`, the source's callback
parameters `(xq, i)` shadow the outer query array and the outer segment index
`i`, so `poly(xq - x[i])` reads `x` at the query's original index, not at the
segment's left knot. -/
def cubicSplineInterpolate (x y xq : List Fl) : Except Err (List (Option Fl)) :=
  match computeCubicPolyCoefficients x y with
  | .error e => .error e
  | .ok bcd =>
    let n := x.length - 1
    match buildSampleArr x n xq with
    | .error e => .error e
    | .ok sampleArr =>
      (sampleArr.enum).foldlM (fun results ie =>
        match ie.2 with
        | none => pure results
        | some xqSubArr =>
          match createPolynomialFunction [y.getD ie.1 none, bcd.1.getD ie.1 none,
              bcd.2.1.getD ie.1 none, bcd.2.2.getD ie.1 none] with
          | .error e => .error e
          | .ok poly =>
            pure ((xqSubArr.enum).foldl (fun results je =>
              match je.2 with
              | none => results
              | some xqv =>
                setPad results je.1 none (some (poly (fsub xqv (x.getD je.1 none)))))
              results))
        ([] : List (Option Fl))

/-- Runs a constructed interpolator on one query: propagates a construction
error, otherwise applies the returned evaluator. -/
def evalAt (c : Except Err (Fl → Except Err Fl)) (q : Fl) : Except Err Fl :=
  match c with
  | .error e => .error e
  | .ok f => f q

/-- Pure rational Horner evaluation over a reversed (highest-degree-first)
coefficient list: the all-finite image of `hornerRev`. -/
def hornerQ (t : ℚ) : List ℚ → ℚ
  | [] => 0
  | v :: rest => rest.foldl (fun acc c => t * acc + c) v

/-- The number of elements smaller than `q`.  For a strictly increasing list
this is the Java insertion point of a key `q` not contained in the list: the
index of the first element greater than `q`, or the length if none is. -/
def insertionPoint (xs : List ℚ) (q : ℚ) : ℕ :=
  xs.countP (fun v => decide (v < q))

/-- Modelled from the spec's words for claim C8: the owning segment index of
a query is the insertion point minus one — the found index on an exact
match — clamped to `[0, segCount - 1]`. -/
def claimSegmentIndex (xs : List ℚ) (q : ℚ) (segCount : ℕ) : ℕ :=
  (max 0 (min (if q ∈ xs then (xs.indexOf q : Int) else (insertionPoint xs q : Int) - 1)
    ((segCount : Int) - 1))).toNat

/-! ### Evaluation lemmas for the number model -/

@[simp] theorem flt_some_some (a b : ℚ) : flt (some a) (some b) = (a < b) := rfl

@[simp] theorem fgt_some_some (a b : ℚ) : fgt (some a) (some b) = (b < a) := rfl

@[simp] theorem fle_some_some (a b : ℚ) : fle (some a) (some b) = (a ≤ b) := rfl

@[simp] theorem feq_some_some (a b : ℚ) : feq (some a) (some b) = (a = b) := rfl

@[simp] theorem fadd_some_some (a b : ℚ) : fadd (some a) (some b) = some (a + b) := rfl

@[simp] theorem fsub_some_some (a b : ℚ) : fsub (some a) (some b) = some (a - b) := rfl

@[simp] theorem fmul_some_some (a b : ℚ) : fmul (some a) (some b) = some (a * b) := rfl

@[simp] theorem fdiv_some_some (a b : ℚ) :
    fdiv (some a) (some b) = if b = 0 then none else some (a / b) := rfl

@[simp] theorem fabs_some (a : ℚ) : fabs (some a) = some |a| := rfl

@[simp] theorem fabs_none : fabs none = none := rfl

@[simp] theorem flt_none_left (b : Fl) : flt none b = False := by cases b <;> rfl

@[simp] theorem flt_none_right (a : Fl) : flt a none = False := by cases a <;> rfl

@[simp] theorem fgt_none_left (b : Fl) : fgt none b = False := by cases b <;> rfl

@[simp] theorem fgt_none_right (a : Fl) : fgt a none = False := by cases a <;> rfl

@[simp] theorem fle_none_left (b : Fl) : fle none b = False := by cases b <;> rfl

@[simp] theorem fle_none_right (a : Fl) : fle a none = False := by cases a <;> rfl

@[simp] theorem feq_none_left (b : Fl) : feq none b = False := by cases b <;> rfl

@[simp] theorem feq_none_right (a : Fl) : feq a none = False := by cases a <;> rfl

@[simp] theorem fadd_none_left (b : Fl) : fadd none b = none := by cases b <;> rfl

@[simp] theorem fadd_none_right (a : Fl) : fadd a none = none := by cases a <;> rfl

@[simp] theorem fsub_none_left (b : Fl) : fsub none b = none := by cases b <;> rfl

@[simp] theorem fsub_none_right (a : Fl) : fsub a none = none := by cases a <;> rfl

@[simp] theorem fmul_none_left (b : Fl) : fmul none b = none := by cases b <;> rfl

@[simp] theorem fmul_none_right (a : Fl) : fmul a none = none := by cases a <;> rfl

@[simp] theorem fdiv_none_left (b : Fl) : fdiv none b = none := by cases b <;> rfl

@[simp] theorem fdiv_none_right (a : Fl) : fdiv a none = none := by cases a <;> rfl

@[simp] theorem pure_eq_ok {α : Type} (x : α) : (pure x : Except Err α) = .ok x := rfl

@[simp] theorem bind_eq_bind {α β : Type} (x : Except Err α) (f : α → Except Err β) :
    x >>= f = Except.bind x f := rfl

/-! ### Sorted-list access helpers -/

theorem getD_eq_getElem (xs : List ℚ) (i : ℕ) (h : i < xs.length) :
    xs.getD i 0 = xs[i] := by
  simp [List.getD_eq_getElem?_getD, List.getElem?_eq_getElem, h]

theorem getD_map_some (xs : List ℚ) (k : ℕ) (hk : k < xs.length) :
    (xs.map some).getD k none = some (xs.getD k 0) := by
  simp [List.getD_eq_getElem?_getD, List.getElem?_map, List.getElem?_eq_getElem, hk]

theorem sorted_getD_lt (xs : List ℚ) (hs : xs.Sorted (· < ·)) (i j : ℕ)
    (hij : i < j) (hj : j < xs.length) : xs.getD i 0 < xs.getD j 0 := by
  have h := List.pairwise_iff_get.mp hs ⟨i, by omega⟩ ⟨j, hj⟩ (by simpa using hij)
  simpa [List.get_eq_getElem, getD_eq_getElem, hj, show i < xs.length by omega] using h

theorem insertionPoint_eq (xs : List ℚ) (q : ℚ) (k : ℕ) (hk : k ≤ xs.length)
    (h1 : ∀ j, j < k → xs.getD j 0 < q)
    (h2 : ∀ j, k ≤ j → j < xs.length → ¬ xs.getD j 0 < q) :
    insertionPoint xs q = k := by
  unfold insertionPoint
  conv_lhs => rw [← List.take_append_drop k xs]
  rw [List.countP_append]
  have htake : (xs.take k).countP (fun v => decide (v < q)) = (xs.take k).length := by
    rw [List.countP_eq_length]
    intro a ha
    obtain ⟨i, hi, rfl⟩ := List.mem_iff_getElem.mp ha
    have hik : i < k := by
      have := hi
      simp only [List.length_take] at this
      omega
    have hilen : i < xs.length := by
      have := hi
      simp only [List.length_take] at this
      omega
    have := h1 i hik
    rw [getD_eq_getElem xs i hilen] at this
    simpa [List.getElem_take] using this
  have hdrop : (xs.drop k).countP (fun v => decide (v < q)) = 0 := by
    rw [List.countP_eq_zero]
    intro a ha
    obtain ⟨i, hi, rfl⟩ := List.mem_iff_getElem.mp ha
    have hilen : k + i < xs.length := by
      have := hi
      simp only [List.length_drop] at this
      omega
    have := h2 (k + i) (by omega) hilen
    rw [getD_eq_getElem xs (k + i) hilen] at this
    simpa [List.getElem_drop] using this
  rw [htake, hdrop, List.length_take]
  omega

theorem not_mem_of_window_empty (xs : List ℚ) (q : ℚ) (k : ℕ)
    (h1 : ∀ j, j < k → xs.getD j 0 < q)
    (h2 : ∀ j, k ≤ j → j < xs.length → q < xs.getD j 0) : q ∉ xs := by
  intro hq
  obtain ⟨i, hi, rfl⟩ := List.mem_iff_getElem.mp hq
  rcases lt_or_le i k with hik | hik
  · exact absurd (h1 i hik) (by rw [getD_eq_getElem xs i hi]; exact lt_irrefl _)
  · exact absurd (h2 i hik hi) (by rw [getD_eq_getElem xs i hi]; exact lt_irrefl _)

/-! ### Binary search characterization -/

theorem bsGo_sorted_spec (xs : List ℚ) (q : ℚ) (hs : xs.Sorted (· < ·)) :
    ∀ fuel low high1, high1 ≤ xs.length → low ≤ high1 → high1 - low ≤ fuel →
      (∀ j, j < low → xs.getD j 0 < q) →
      (∀ j, high1 ≤ j → j < xs.length → q < xs.getD j 0) →
      bsGo (xs.map some) (some q) fuel low high1 =
        (if q ∈ xs then .ok (insertionPoint xs q : Int)
         else .ok (-(insertionPoint xs q + 1 : Int))) := by
  intro fuel
  induction fuel with
  | zero =>
    intro low high1 hlen hlh hfuel h1 h2
    have hloweq : low = high1 := by omega
    subst hloweq
    rw [if_neg (not_mem_of_window_empty xs q low h1 h2)]
    rw [insertionPoint_eq xs q low (by omega) h1 (fun j hj hjl => not_lt.mpr (le_of_lt (h2 j hj hjl)))]
    rfl
  | succ fuel ih =>
    intro low high1 hlen hlh hfuel h1 h2
    by_cases hlow : low < high1
    · have hmidlo : low ≤ (low + high1 - 1) / 2 := by omega
      have hmidhi : (low + high1 - 1) / 2 < high1 := by omega
      have hmidlen : (low + high1 - 1) / 2 < xs.length := by omega
      simp only [bsGo, if_pos hlow, getD_map_some xs _ hmidlen, flt_some_some,
        fgt_some_some, feq_some_some]
      set mid := (low + high1 - 1) / 2 with hmid
      by_cases hcl : xs.getD mid 0 < q
      · rw [if_pos hcl]
        refine ih (mid + 1) high1 hlen (by omega) (by omega) ?_ h2
        intro j hj
        rcases lt_or_le j low with hjl | hjl
        · exact h1 j hjl
        · rcases lt_or_eq_of_le (show j ≤ mid by omega) with hjm | hjm
          · exact lt_trans (sorted_getD_lt xs hs j mid hjm hmidlen) hcl
          · rw [hjm]; exact hcl
      · rw [if_neg hcl]
        by_cases hcg : q < xs.getD mid 0
        · rw [if_pos hcg]
          refine ih low mid (by omega) (by omega) (by omega) h1 ?_
          intro j hj hjlen
          rcases lt_or_eq_of_le hj with hjm | hjm
          · exact lt_trans hcg (sorted_getD_lt xs hs mid j hjm hjlen)
          · rw [← hjm]; exact hcg
        · have hceq : xs.getD mid 0 = q := le_antisymm (not_lt.mp hcg) (not_lt.mp hcl)
          rw [if_neg hcg, if_pos hceq]
          have hmem : q ∈ xs := by
            rw [← hceq, getD_eq_getElem xs mid hmidlen]
            exact List.getElem_mem hmidlen
          rw [if_pos hmem]
          have hip : insertionPoint xs q = mid := by
            refine insertionPoint_eq xs q mid (by omega) ?_ ?_
            · intro j hj
              rw [← hceq]
              exact sorted_getD_lt xs hs j mid hj hmidlen
            · intro j hj hjlen
              rcases lt_or_eq_of_le hj with hjm | hjm
              · exact not_lt.mpr (le_of_lt (by rw [← hceq]; exact sorted_getD_lt xs hs mid j hjm hjlen))
              · rw [← hjm, hceq]; exact lt_irrefl q
          rw [hip]
    · have hloweq : low = high1 := by omega
      subst hloweq
      simp only [bsGo, if_neg hlow]
      rw [if_neg (not_mem_of_window_empty xs q low h1 h2)]
      rw [insertionPoint_eq xs q low (by omega) h1 (fun j hj hjl => not_lt.mpr (le_of_lt (h2 j hj hjl)))]

theorem binarySearch_sorted (xs : List ℚ) (q : ℚ) (hs : xs.Sorted (· < ·)) :
    Arrays_binarySearch (xs.map some) (some q) =
      (if q ∈ xs then .ok (insertionPoint xs q : Int)
       else .ok (-(insertionPoint xs q + 1 : Int))) := by
  unfold Arrays_binarySearch
  rw [List.length_map]
  exact bsGo_sorted_spec xs q hs xs.length 0 xs.length (le_refl _) (by omega) (by omega)
    (fun j hj => absurd hj (by omega)) (fun j hj hjl => absurd hjl (by omega))

theorem insertionPoint_getD (xs : List ℚ) (hs : xs.Sorted (· < ·)) (i : ℕ)
    (hi : i < xs.length) : insertionPoint xs (xs.getD i 0) = i := by
  refine insertionPoint_eq xs _ i (by omega) ?_ ?_
  · intro j hj
    exact sorted_getD_lt xs hs j i hj hi
  · intro j hj hjlen
    rcases lt_or_eq_of_le hj with hij | hij
    · exact not_lt.mpr (le_of_lt (sorted_getD_lt xs hs i j hij hjlen))
    · rw [← hij]; exact lt_irrefl _

theorem mem_of_getD (xs : List ℚ) (i : ℕ) (hi : i < xs.length) : xs.getD i 0 ∈ xs := by
  rw [getD_eq_getElem xs i hi]
  exact List.getElem_mem hi

theorem binarySearch_at_knot (xs : List ℚ) (hs : xs.Sorted (· < ·)) (i : ℕ)
    (hi : i < xs.length) :
    Arrays_binarySearch (xs.map some) (some (xs.getD i 0)) = .ok (i : Int) := by
  rw [binarySearch_sorted xs _ hs, if_pos (mem_of_getD xs i hi), insertionPoint_getD xs hs i hi]

theorem binarySearch_not_mem (xs : List ℚ) (q : ℚ) (hs : xs.Sorted (· < ·)) (hq : q ∉ xs) :
    Arrays_binarySearch (xs.map some) (some q) = .ok (-(insertionPoint xs q + 1 : Int)) := by
  rw [binarySearch_sorted xs q hs, if_neg hq]

theorem insertionPoint_between (xs : List ℚ) (q : ℚ) (hs : xs.Sorted (· < ·)) (i : ℕ)
    (hi1 : i + 1 < xs.length) (hl : xs.getD i 0 < q) (hr : q < xs.getD (i + 1) 0) :
    insertionPoint xs q = i + 1 := by
  refine insertionPoint_eq xs q (i + 1) (by omega) ?_ ?_
  · intro j hj
    rcases lt_or_eq_of_le (show j ≤ i by omega) with hij | hij
    · exact lt_trans (sorted_getD_lt xs hs j i hij (by omega)) hl
    · rw [hij]; exact hl
  · intro j hj hjlen
    rcases lt_or_eq_of_le hj with hij | hij
    · exact not_lt.mpr (le_of_lt (lt_trans hr (sorted_getD_lt xs hs (i + 1) j hij hjlen)))
    · rw [← hij]; exact not_lt.mpr (le_of_lt hr)

theorem insertionPoint_below (xs : List ℚ) (q : ℚ) (hs : xs.Sorted (· < ·))
    (hlen : 0 < xs.length) (hq : q < xs.getD 0 0) : insertionPoint xs q = 0 := by
  refine insertionPoint_eq xs q 0 (by omega) (fun j hj => absurd hj (by omega)) ?_
  intro j _ hjlen
  rcases Nat.eq_zero_or_pos j with hj0 | hj0
  · rw [hj0]; exact not_lt.mpr (le_of_lt hq)
  · exact not_lt.mpr (le_of_lt (lt_trans hq (sorted_getD_lt xs hs 0 j hj0 hjlen)))

theorem insertionPoint_above (xs : List ℚ) (q : ℚ) (hs : xs.Sorted (· < ·))
    (hq : xs.getD (xs.length - 1) 0 < q) : insertionPoint xs q = xs.length := by
  refine insertionPoint_eq xs q xs.length (le_refl _) ?_ (fun j hj hjlen => absurd hjlen (by omega))
  intro j hj
  rcases lt_or_eq_of_le (show j ≤ xs.length - 1 by omega) with hij | hij
  · exact lt_trans (sorted_getD_lt xs hs j (xs.length - 1) hij (by omega)) hq
  · rw [hij]; exact hq

/-! ### Order check, polynomial and spline evaluation helpers -/

theorem checkOrderGo_sorted (p : ℚ) (rest : List ℚ)
    (h : List.Chain' (· < ·) (p :: rest)) :
    checkOrderGo (some p) (rest.map some) = .ok () := by
  induction rest generalizing p with
  | nil => rfl
  | cons a l ih =>
    have hpa : p < a := (List.chain'_cons.mp h).1
    simp only [List.map, checkOrderGo, fle_some_some]
    rw [if_neg (not_le.mpr hpa)]
    exact ih a (List.chain'_cons.mp h).2

theorem checkOrder_sorted (xs : List ℚ) (hs : xs.Sorted (· < ·)) :
    MathArrays_checkOrder (xs.map some) = .ok () := by
  cases xs with
  | nil => rfl
  | cons p rest =>
    have hch : List.Chain' (· < ·) (p :: rest) := List.chain'_iff_pairwise.mpr hs
    simpa [MathArrays_checkOrder] using checkOrderGo_sorted p rest hch

theorem mapM_ok {α β : Type} (f : α → Except Err β) (g : α → β) (l : List α)
    (h : ∀ a ∈ l, f a = .ok (g a)) : l.mapM f = .ok (l.map g) := by
  induction l with
  | nil => rfl
  | cons a l ih =>
    rw [List.mapM_cons, h a (List.mem_cons_self a l),
      ih (fun b hb => h b (List.mem_cons_of_mem a hb))]
    rfl

theorem getD_range_map {β : Type} (f : ℕ → β) (n i : ℕ) (hi : i < n) (d : β) :
    ((List.range n).map f).getD i d = f i := by
  simp [List.getD_eq_getElem?_getD, List.getElem?_map, List.getElem?_range, hi]

theorem hornerRev_cons_zero (t : ℚ) (w : Fl) (rest : List Fl) :
    hornerRev (some t) (some 0 :: w :: rest) = hornerRev (some t) (w :: rest) := by
  have hstep : fadd (fmul (some t) (some 0)) w = w := by
    cases w with
    | none => rfl
    | some b => simp
  simp only [hornerRev, List.foldl]
  rw [hstep]

theorem trimRev_hornerRev (t : ℚ) (l : List Fl) :
    hornerRev (some t) (trimRev l) = hornerRev (some t) l := by
  induction l with
  | nil => rfl
  | cons v tail ih =>
    cases tail with
    | nil => rfl
    | cons w rest =>
      by_cases hv : feq v (some 0)
      · have hv0 : v = some 0 := by
          cases v with
          | none => exact absurd hv (by simp)
          | some a => simpa [feq] using hv
        simp only [trimRev, if_pos hv]
        rw [ih, hv0, hornerRev_cons_zero]
      · simp only [trimRev, if_neg hv]

theorem foldl_horner_map_some (t : ℚ) (rest : List ℚ) (v : ℚ) :
    (rest.map some).foldl (fun acc c => fadd (fmul (some t) acc) c) (some v)
      = some (rest.foldl (fun acc c => t * acc + c) v) := by
  induction rest generalizing v with
  | nil => rfl
  | cons c cs ih =>
    simp only [List.map, List.foldl, fmul_some_some, fadd_some_some]
    exact ih (t * v + c)

theorem hornerRev_map_some (t : ℚ) (cs : List ℚ) (hne : cs ≠ []) :
    hornerRev (some t) (cs.map some) = some (hornerQ t cs) := by
  cases cs with
  | nil => exact absurd rfl hne
  | cons v rest =>
    simp only [List.map, hornerRev, hornerQ]
    exact foldl_horner_map_some t rest v

theorem polyEval_map_some (t : ℚ) (cs : List ℚ) (hne : cs ≠ []) :
    polyEval (trimRev ((cs.map some).reverse)) (some t) = some (hornerQ t cs.reverse) := by
  unfold polyEval
  rw [← List.map_reverse, trimRev_hornerRev, hornerRev_map_some]
  simpa using hne

theorem indexOf_eq_insertionPoint (xs : List ℚ) (q : ℚ) (hs : xs.Sorted (· < ·))
    (hq : q ∈ xs) : (xs.indexOf q : ℕ) = insertionPoint xs q := by
  obtain ⟨i, hi, hqi⟩ := List.mem_iff_getElem.mp hq
  have hk : xs.indexOf q < xs.length := List.indexOf_lt_length.mpr hq
  have hkq : xs[xs.indexOf q] = q := List.getElem_indexOf hk
  have hki : xs.indexOf q = i := by
    rcases lt_trichotomy (xs.indexOf q) i with hlt | heq | hgt
    · have := sorted_getD_lt xs hs _ i hlt hi
      rw [getD_eq_getElem xs _ hk, getD_eq_getElem xs i hi, hkq, hqi] at this
      exact absurd this (lt_irrefl q)
    · exact heq
    · have := sorted_getD_lt xs hs i _ hgt hk
      rw [getD_eq_getElem xs _ hk, getD_eq_getElem xs i hi, hkq, hqi] at this
      exact absurd this (lt_irrefl q)
  rw [hki, ← insertionPoint_getD xs hs i hi, getD_eq_getElem xs i hi, hqi]

theorem splineEval_sorted_q (xs : List ℚ) (polys : List (Fl → Fl)) (q : ℚ)
    (hs : xs.Sorted (· < ·)) :
    splineEval (xs.map some) polys (some q) =
      .ok ((polys.getD (claimSegmentIndex xs q polys.length) (fun _ => none))
           (fsub (some q) ((xs.map some).getD (claimSegmentIndex xs q polys.length) none))) := by
  unfold splineEval
  rw [binarySearch_sorted xs q hs]
  unfold claimSegmentIndex
  by_cases hq : q ∈ xs
  · rw [if_pos hq, if_pos hq, ← indexOf_eq_insertionPoint xs q hs hq]
    have hnneg : ¬ ((xs.indexOf q : Int) < 0) := by omega
    simp only [hnneg, if_neg, ite_false]
  · rw [if_neg hq, if_neg hq]
    have hneg : (-(insertionPoint xs q + 1 : Int)) < 0 := by omega
    simp only [hneg, ite_true]
    have harith : -(-(insertionPoint xs q + 1 : Int)) - 2 = (insertionPoint xs q : Int) - 1 := by
      omega
    rw [harith]

theorem splineEval_at_knot (xs : List ℚ) (polys : List (Fl → Fl)) (i : ℕ)
    (hs : xs.Sorted (· < ·)) (hi : i < xs.length) (h2 : 2 ≤ xs.length)
    (hpl : polys.length = xs.length - 1) :
    splineEval (xs.map some) polys (some (xs.getD i 0)) =
      .ok ((polys.getD (min i (xs.length - 2)) (fun _ => none))
           (some (xs.getD i 0 - xs.getD (min i (xs.length - 2)) 0))) := by
  unfold splineEval
  rw [binarySearch_at_knot xs hs i hi]
  have hnneg : ¬ ((i : Int) < 0) := by omega
  simp only [hnneg, ite_false]
  have hidx : (max 0 (min (i : Int) ((polys.length : Int) - 1))).toNat
      = min i (xs.length - 2) := by omega
  rw [hidx, getD_map_some xs _ (by omega), fsub_some_some]

theorem not_mem_of_below (xs : List ℚ) (q : ℚ) (hs : xs.Sorted (· < ·))
    (hq : q < xs.getD 0 0) : q ∉ xs := by
  intro hmem
  obtain ⟨i, hi, hqi⟩ := List.mem_iff_getElem.mp hmem
  rcases Nat.eq_zero_or_pos i with h0 | h0
  · subst h0
    rw [getD_eq_getElem xs 0 hi, hqi] at hq
    exact lt_irrefl q hq
  · have hlt := sorted_getD_lt xs hs 0 i h0 hi
    rw [getD_eq_getElem xs i hi, hqi] at hlt
    exact lt_irrefl q (lt_trans hq hlt)

theorem not_mem_of_above (xs : List ℚ) (q : ℚ) (hs : xs.Sorted (· < ·))
    (hq : xs.getD (xs.length - 1) 0 < q) : q ∉ xs := by
  intro hmem
  obtain ⟨i, hi, hqi⟩ := List.mem_iff_getElem.mp hmem
  rcases lt_or_eq_of_le (show i ≤ xs.length - 1 by omega) with hil | hil
  · have hlt := sorted_getD_lt xs hs i (xs.length - 1) hil (by omega)
    rw [getD_eq_getElem xs i hi, hqi] at hlt
    exact lt_irrefl q (lt_trans hlt hq)
  · subst hil
    rw [getD_eq_getElem xs (xs.length - 1) hi, hqi] at hq
    exact lt_irrefl q hq

theorem claimSegmentIndex_lt (xs : List ℚ) (q : ℚ) (segCount : ℕ) (h : 1 ≤ segCount) :
    claimSegmentIndex xs q segCount < segCount := by
  by_cases hq : q ∈ xs <;> simp only [claimSegmentIndex, hq, if_true, if_false] <;> omega

theorem createPolynomialSplineFunction_ok (xs : List ℚ) (polys : List (Fl → Fl))
    (hs : xs.Sorted (· < ·)) (h2 : 2 ≤ xs.length) (hpl : polys.length = xs.length - 1) :
    createPolynomialSplineFunction (xs.map some) polys
      = .ok (splineEval (xs.map some) polys) := by
  unfold createPolynomialSplineFunction
  rw [checkOrder_sorted xs hs]
  simp only [List.length_map]
  rw [if_neg (by omega), if_neg (by omega)]

theorem claimSegmentIndex_below (xs : List ℚ) (q : ℚ) (segCount : ℕ)
    (hs : xs.Sorted (· < ·)) (hq : q < xs.getD 0 0) (hlen : 0 < xs.length) :
    claimSegmentIndex xs q segCount = 0 := by
  unfold claimSegmentIndex
  rw [if_neg (not_mem_of_below xs q hs hq), insertionPoint_below xs q hs hlen hq]
  omega

theorem claimSegmentIndex_above (xs : List ℚ) (q : ℚ) (segCount : ℕ)
    (hs : xs.Sorted (· < ·)) (hq : xs.getD (xs.length - 1) 0 < q)
    (hseg : segCount = xs.length - 1) (h2 : 2 ≤ xs.length) :
    claimSegmentIndex xs q segCount = segCount - 1 := by
  unfold claimSegmentIndex
  rw [if_neg (not_mem_of_above xs q hs hq), insertionPoint_above xs q hs hq]
  omega

/-! ### Claim C8 -/

/-- C8: for a spline evaluator built from m ≥ 2 strictly increasing knots and
m-1 polynomials, every rational query x is evaluated as
`segment[i](x - knot[i])` where `i` is the insertion point minus one (the
found index on an exact match) clamped to `[0, m-2]`; in particular a query
below the first knot uses segment 0 and a query above the last knot uses
segment m-2. -/
theorem C8_spline_segment_selection (xs : List ℚ) (polys : List (Fl → Fl)) (q : ℚ)
    (hs : xs.Sorted (· < ·)) (h2 : 2 ≤ xs.length) (hpl : polys.length = xs.length - 1) :
    evalAt (createPolynomialSplineFunction (xs.map some) polys) (some q) =
      .ok ((polys.getD (claimSegmentIndex xs q polys.length) (fun _ => none))
           (some (q - xs.getD (claimSegmentIndex xs q polys.length) 0))) ∧
    (q < xs.getD 0 0 → claimSegmentIndex xs q polys.length = 0) ∧
    (xs.getD (xs.length - 1) 0 < q → claimSegmentIndex xs q polys.length = polys.length - 1) := by
  refine ⟨?_, fun hq => claimSegmentIndex_below xs q polys.length hs hq (by omega),
    fun hq => claimSegmentIndex_above xs q polys.length hs hq hpl h2⟩
  rw [createPolynomialSplineFunction_ok xs polys hs h2 hpl]
  show splineEval (xs.map some) polys (some q) = _
  rw [splineEval_sorted_q xs polys q hs,
    getD_map_some xs _ (lt_of_lt_of_le (claimSegmentIndex_lt xs q polys.length (by omega))
      (by omega)),
    fsub_some_some]

/-- Witness for C8: knots [0, 1], one identity segment polynomial, query 5
(above the last knot, so segment 0 extrapolates and returns 5 - 0). -/
theorem C8_spline_segment_selection_witness :
    evalAt (createPolynomialSplineFunction [some 0, some 1] [fun t => t]) (some 5)
      = .ok (some 5) := by
  have h := C8_spline_segment_selection [0, 1] [fun t => t] 5
    (by norm_num [List.sorted_cons]) (by norm_num) (by norm_num)
  have hidx : claimSegmentIndex [0, 1] 5 1 = 0 := by
    have h3 := h.2.2 (by norm_num [List.getD])
    simpa using h3
  have h1 := h.1
  simp only [List.length_singleton] at h1
  rw [hidx] at h1
  simp only [List.map_cons, List.map_nil] at h1
  refine h1.trans ?_
  norm_num [List.getD]

theorem sorted_getD_le (xs : List ℚ) (hs : xs.Sorted (· < ·)) (a b : ℕ)
    (hab : a ≤ b) (hb : b < xs.length) : xs.getD a 0 ≤ xs.getD b 0 := by
  rcases lt_or_eq_of_le hab with h | h
  · exact le_of_lt (sorted_getD_lt xs hs a b h hb)
  · rw [h]

theorem not_mem_of_between (xs : List ℚ) (q : ℚ) (hs : xs.Sorted (· < ·)) (i : ℕ)
    (hi : i + 1 < xs.length) (hl : xs.getD i 0 < q) (hr : q < xs.getD (i + 1) 0) : q ∉ xs := by
  intro hmem
  obtain ⟨j, hj, hqj⟩ := List.mem_iff_getElem.mp hmem
  have hq' : xs.getD j 0 = q := by rw [getD_eq_getElem xs j hj, hqj]
  rcases le_or_lt j i with hji | hji
  · have hle : q ≤ xs.getD i 0 := by
      rw [← hq']
      exact sorted_getD_le xs hs j i hji (by omega)
    exact lt_irrefl q (lt_of_le_of_lt hle hl)
  · have hle : xs.getD (i + 1) 0 ≤ q := by
      rw [← hq']
      exact sorted_getD_le xs hs (i + 1) j hji hj
    exact lt_irrefl q (lt_of_lt_of_le hr hle)

theorem linear_right_endpoint (x0 x1 y0 y1 m : ℚ) (h : x1 - x0 ≠ 0) :
    (x1 - x1) * m + y1 = y0 + (x1 - x0) * (y1 - y0) / (x1 - x0) := by
  rw [sub_self, zero_mul, zero_add]
  field_simp

theorem linPoly_eval (ay am t : ℚ) :
    polyEval (trimRev (([ay, am].map some).reverse)) (some t) = some (t * am + ay) := by
  rw [polyEval_map_some t [ay, am] (by simp)]
  norm_num [hornerQ]

theorem createLinearInterpolator_ok (xs ys : List ℚ) (hs : xs.Sorted (· < ·))
    (hlen : xs.length = ys.length) (h2 : 2 ≤ xs.length) :
    createLinearInterpolator (xs.map some) (ys.map some) =
      .ok (splineEval (xs.map some) ((List.range (xs.length - 1)).map (fun i =>
        polyEval (trimRev (([ys.getD i 0,
          (ys.getD (i + 1) 0 - ys.getD i 0) / (xs.getD (i + 1) 0 - xs.getD i 0)].map some).reverse))))) := by
  simp only [createLinearInterpolator, List.length_map]
  rw [checkOrder_sorted xs hs]
  rw [if_neg (by omega), if_neg (by omega)]
  rw [mapM_ok _ (fun i =>
    polyEval (trimRev (([ys.getD i 0,
      (ys.getD (i + 1) 0 - ys.getD i 0) / (xs.getD (i + 1) 0 - xs.getD i 0)].map some).reverse))) _ ?_]
  · exact createPolynomialSplineFunction_ok xs _ hs h2 (by simp)
  · intro a ha
    have han : a < xs.length - 1 := by simpa using ha
    have hane : xs.getD (a + 1) 0 - xs.getD a 0 ≠ 0 :=
      sub_ne_zero.mpr (ne_of_gt (sorted_getD_lt xs hs a (a + 1) (by omega) (by omega)))
    simp only [getD_range_map _ _ a han, getD_map_some ys a (by omega),
      getD_map_some ys (a + 1) (by omega), getD_map_some xs a (by omega),
      getD_map_some xs (a + 1) (by omega), fsub_some_some, fdiv_some_some, if_neg hane,
      createPolynomialFunction, List.map_cons, List.map_nil, List.length_cons]
    rw [if_neg (by simp)]

/-! ### Claim C5 -/

/-- C5: for at least 2 points with strictly increasing x, the linear
interpolator evaluated at any rational query q with x[i] <= q <= x[i+1]
returns the exact linear blend y[i] + (q - x[i]) * (y[i+1] - y[i]) / (x[i+1] - x[i]). -/
theorem C5_linear_interpolation_formula (xs ys : List ℚ) (i : ℕ) (q : ℚ)
    (hs : xs.Sorted (· < ·)) (hlen : xs.length = ys.length) (hi : i + 1 < xs.length)
    (hql : xs.getD i 0 ≤ q) (hqr : q ≤ xs.getD (i + 1) 0) :
    evalAt (createLinearInterpolator (xs.map some) (ys.map some)) (some q) =
      .ok (some (ys.getD i 0 + (q - xs.getD i 0) * (ys.getD (i + 1) 0 - ys.getD i 0)
        / (xs.getD (i + 1) 0 - xs.getD i 0))) := by
  have h2 : 2 ≤ xs.length := by omega
  rw [createLinearInterpolator_ok xs ys hs hlen h2]
  show splineEval _ _ _ = _
  rcases eq_or_lt_of_le hql with hqeq | hql'
  · rw [← hqeq]
    rw [splineEval_at_knot xs _ i hs (by omega) h2 (by simp)]
    have hmin : min i (xs.length - 2) = i := by omega
    rw [hmin, getD_range_map _ _ i (by omega), linPoly_eval]
    exact congrArg (fun v : ℚ => (Except.ok (some v) : Except Err Fl)) (by ring)
  · rcases eq_or_lt_of_le hqr with hqeq | hqr'
    · rw [hqeq]
      have hane : xs.getD (i + 1) 0 - xs.getD i 0 ≠ 0 :=
        sub_ne_zero.mpr (ne_of_gt (sorted_getD_lt xs hs i (i + 1) (by omega) (by omega)))
      rw [splineEval_at_knot xs _ (i + 1) hs (by omega) h2 (by simp)]
      rcases (show i + 1 ≤ xs.length - 2 ∨ i + 1 = xs.length - 1 by omega) with hc | hc
      · have hmin : min (i + 1) (xs.length - 2) = i + 1 := by omega
        rw [hmin, getD_range_map _ _ (i + 1) (by omega), linPoly_eval]
        exact congrArg (fun v : ℚ => (Except.ok (some v) : Except Err Fl))
          (linear_right_endpoint _ _ _ _ _ hane)
      · have hmin : min (i + 1) (xs.length - 2) = i := by omega
        rw [hmin, getD_range_map _ _ i (by omega), linPoly_eval]
        exact congrArg (fun v : ℚ => (Except.ok (some v) : Except Err Fl)) (by ring)
    · have hnm : q ∉ xs := not_mem_of_between xs q hs i hi hql' hqr'
      rw [splineEval_sorted_q xs _ q hs]
      simp only [List.length_map, List.length_range]
      have hcsi : claimSegmentIndex xs q (xs.length - 1) = i := by
        unfold claimSegmentIndex
        rw [if_neg hnm, insertionPoint_between xs q hs i hi hql' hqr']
        omega
      rw [hcsi, getD_map_some xs i (by omega), fsub_some_some,
        getD_range_map _ _ i (by omega), linPoly_eval]
      exact congrArg (fun v : ℚ => (Except.ok (some v) : Except Err Fl)) (by ring)

/-- Witness for C5: createLinearInterpolator([0,2], [0,10]) applied to 1
returns 5. -/
theorem C5_linear_interpolation_formula_witness :
    evalAt (createLinearInterpolator [some 0, some 2] [some 0, some 10]) (some 1)
      = .ok (some 5) := by
  have h := C5_linear_interpolation_formula [0, 2] [0, 10] 0 1
    (by norm_num [List.sorted_cons]) (by norm_num) (by norm_num)
    (by norm_num [List.getD_cons_zero]) (by norm_num [List.getD_cons_succ, List.getD_cons_zero])
  simp only [List.map_cons, List.map_nil] at h
  refine h.trans ?_
  norm_num [List.getD_cons_zero, List.getD_cons_succ]

theorem createNearestNeighborInterpolator_ok (xs ys : List ℚ) (hs : xs.Sorted (· < ·))
    (hlen : xs.length = ys.length) (h2 : 2 ≤ xs.length) :
    createNearestNeighborInterpolator (xs.map some) (ys.map some)
      = .ok (nearestEval (xs.map some) (ys.map some)) := by
  unfold createNearestNeighborInterpolator
  simp only [List.length_map]
  rw [if_neg (by omega), if_neg (by omega), if_neg (by omega), checkOrder_sorted xs hs]

theorem nearestEval_at_knot (xs ys : List ℚ) (i : ℕ) (hs : xs.Sorted (· < ·))
    (hlen : xs.length = ys.length) (hi : i < xs.length) :
    nearestEval (xs.map some) (ys.map some) (some (xs.getD i 0)) = .ok (some (ys.getD i 0)) := by
  unfold nearestEval
  rw [binarySearch_at_knot xs hs i hi]
  split
  next heq => exact absurd heq (by simp)
  next i0 heq =>
    injection heq with h
    subst h
    rw [if_pos (by omega : (0:Int) ≤ ((i:ℕ) : Int)), Int.toNat_natCast,
      getD_map_some ys i (by omega)]

theorem nearestEval_interior (xs ys : List ℚ) (i : ℕ) (q : ℚ) (hs : xs.Sorted (· < ·))
    (hlen : xs.length = ys.length) (hi : i + 1 < xs.length)
    (hl : xs.getD i 0 < q) (hr : q < xs.getD (i + 1) 0) :
    nearestEval (xs.map some) (ys.map some) (some q) =
      .ok (if q - xs.getD i 0 + (q - xs.getD i 0) < xs.getD (i + 1) 0 - xs.getD i 0
        then some (ys.getD i 0) else some (ys.getD (i + 1) 0)) := by
  unfold nearestEval
  rw [binarySearch_not_mem xs q hs (not_mem_of_between xs q hs i hi hl hr),
    insertionPoint_between xs q hs i hi hl hr]
  split
  next heq => exact absurd heq (by simp)
  next i0 heq =>
    injection heq with h
    subst h
    rw [if_neg (by omega : ¬ ((0:Int) ≤ -(((i:ℕ) + 1 : ℕ) + 1 : Int)))]
    have hival : (- -((↑(i + 1) : Int) + 1) - 1) = ((i + 1 : ℕ) : Int) := by push_cast; ring
    rw [hival]
    rw [if_neg (by omega : ¬ (((i + 1 : ℕ) : Int) = 0))]
    simp only [List.length_map]
    rw [if_neg (by omega : ¬ ((xs.length : Int) ≤ ((i + 1 : ℕ) : Int)))]
    have ht1 : (((i + 1 : ℕ) : Int) - 1).toNat = i := by omega
    have ht2 : ((i + 1 : ℕ) : Int).toNat = i + 1 := by omega
    simp only [ht1, ht2, getD_map_some xs i (by omega), getD_map_some xs (i + 1) (by omega),
      getD_map_some ys i (by omega), getD_map_some ys (i + 1) (by omega),
      fsub_some_some, fadd_some_some, flt_some_some]

/-! ### Claim C6 -/

/-- C6: the nearest-neighbor evaluator returns NaN for every query when built
from empty inputs; returns the single y value for every query when built from
a single point; and for n ≥ 2 a query exactly midway between two adjacent
knots returns the right knot's y value, because the tie-break comparison
`2·distanceLeft < width` (written `d + d < w`) is strict. -/
theorem C6_nearest_neighbor_cases :
    (∀ q : Fl, evalAt (createNearestNeighborInterpolator [] []) q = .ok none) ∧
    (∀ x0 y0 q : Fl, evalAt (createNearestNeighborInterpolator [x0] [y0]) q = .ok y0) ∧
    (∀ (xs ys : List ℚ) (i : ℕ), xs.Sorted (· < ·) → xs.length = ys.length →
      i + 1 < xs.length →
      evalAt (createNearestNeighborInterpolator (xs.map some) (ys.map some))
        (some ((xs.getD i 0 + xs.getD (i + 1) 0) / 2)) = .ok (some (ys.getD (i + 1) 0))) := by
  refine ⟨fun q => rfl, fun x0 y0 q => rfl, ?_⟩
  intro xs ys i hs hlen hi
  have hlt := sorted_getD_lt xs hs i (i + 1) (by omega) hi
  have hl : xs.getD i 0 < (xs.getD i 0 + xs.getD (i + 1) 0) / 2 := by linarith
  have hr : (xs.getD i 0 + xs.getD (i + 1) 0) / 2 < xs.getD (i + 1) 0 := by linarith
  rw [createNearestNeighborInterpolator_ok xs ys hs hlen (by omega)]
  show nearestEval _ _ _ = _
  rw [nearestEval_interior xs ys i _ hs hlen hi hl hr]
  rw [if_neg (not_lt.mpr (by linarith))]

/-- Witness for C6: the empty data set returns NaN, a single point returns
its y value, and the midpoint query 1 between knots 0 and 2 returns the right
knot's value 7. -/
theorem C6_nearest_neighbor_cases_witness :
    evalAt (createNearestNeighborInterpolator [] []) none = .ok none ∧
    evalAt (createNearestNeighborInterpolator [some 0] [some 3]) (some 100) = .ok (some 3) ∧
    evalAt (createNearestNeighborInterpolator [some 0, some 2] [some 3, some 7]) (some 1)
      = .ok (some 7) := by
  refine ⟨C6_nearest_neighbor_cases.1 none, C6_nearest_neighbor_cases.2.1 (some 0) (some 3) (some 100), ?_⟩
  have h := C6_nearest_neighbor_cases.2.2 [0, 2] [3, 7] 0 (by norm_num [List.sorted_cons])
    (by norm_num) (by norm_num)
  simp only [List.map_cons, List.map_nil] at h
  norm_num [List.getD_cons_zero, List.getD_cons_succ] at h
  exact h


end CMI

namespace CMI

/-! ### Claim C1 -/

/-- C1: `cubicSplineInterpolate` is claimed to return, at each original query
index, the value of the closure returned by `createCubicSplineInterpolator`
at that query.  It does not: for x = [0,1,2], y = [0,1,0] and the single
query 5/2 (owning segment 1), the batch path evaluates segment 1's
polynomial at `xq[0] - x[0]` — the inner forEach callback's index parameter
shadows the outer segment index — giving -9/16, while the closure evaluates
it at `xq[0] - x[1]`, giving -11/16. -/
theorem C1_batch_disagrees_with_closure :
    cubicSplineInterpolate [some 0, some 1, some 2] [some 0, some 1, some 0] [some (5/2)]
        = .ok [some (some (-9/16))] ∧
    evalAt (createCubicSplineInterpolator [some 0, some 1, some 2] [some 0, some 1, some 0])
        (some (5/2)) = .ok (some (-11/16)) ∧
    some (some ((-9/16 : ℚ))) ≠ some (some ((-11/16 : ℚ))) := by
  refine ⟨?_, ?_, by norm_num⟩
  · norm_num [cubicSplineInterpolate, computeCubicPolyCoefficients, cubicB, cubicC, cubicD, cubicH, MathArrays_checkOrder,
      checkOrderGo, muz, cIdx, buildSampleArr, Arrays_binarySearch, bsGo,
      setPad, createPolynomialFunction, polyEval, trimRev, hornerRev, Except.bind,
      List.foldlM, List.enum, List.enumFrom, List.range_succ]
  · norm_num [evalAt, createCubicSplineInterpolator, computeCubicPolyCoefficients, cubicB, cubicC, cubicD, cubicH,
      MathArrays_checkOrder, checkOrderGo, muz, cIdx, Arrays_binarySearch, bsGo,
      createPolynomialFunction, polyEval, trimRev, hornerRev, Except.bind,
      createPolynomialSplineFunction, splineEval, List.mapM, List.mapM.loop,
      List.range_succ]

/-! ### Claim C2 -/

/-- C2 counterexample: for x = [1, 1, 2] the Akima constructor does not raise
the order error; its 5-point minimum check fires first, raising the
insufficient-points error. -/
theorem C2_counterexample_akima_raises_point_count :
    createAkimaSplineInterpolator [some 1, some 1, some 2] [some 0, some 0, some 0]
      = .error .insufficientPoints ∧ Err.insufficientPoints ≠ Err.order := by
  refine ⟨by norm_num [createAkimaSplineInterpolator], by decide⟩

/-- C2 (amended): with x = [1, 1, 2] and any y-sequence of length 3, the
nearest-neighbor, linear and cubic constructors raise the order error, while
the Akima constructor raises the insufficient-points error because its
5-point minimum check precedes the order check. -/
theorem C2_order_error_on_non_increasing (y : List Fl) (hy : y.length = 3) :
    createNearestNeighborInterpolator [some 1, some 1, some 2] y = .error .order ∧
    createLinearInterpolator [some 1, some 1, some 2] y = .error .order ∧
    createCubicSplineInterpolator [some 1, some 1, some 2] y = .error .order ∧
    createAkimaSplineInterpolator [some 1, some 1, some 2] y = .error .insufficientPoints := by
  refine ⟨?_, ?_, ?_, ?_⟩ <;>
    norm_num [createNearestNeighborInterpolator, createLinearInterpolator,
      createCubicSplineInterpolator, computeCubicPolyCoefficients,
      createAkimaSplineInterpolator, hy, MathArrays_checkOrder, checkOrderGo]

/-- Witness for C2: the amended statement at the concrete y = [0, 0, 0]. -/
theorem C2_order_error_on_non_increasing_witness :
    ([some 0, some 0, some 0] : List Fl).length = 3 ∧
    createNearestNeighborInterpolator [some 1, some 1, some 2] [some 0, some 0, some 0]
      = .error .order ∧
    createAkimaSplineInterpolator [some 1, some 1, some 2] [some 0, some 0, some 0]
      = .error .insufficientPoints := by
  have h := C2_order_error_on_non_increasing [some 0, some 0, some 0] rfl
  exact ⟨rfl, h.1, h.2.2.2⟩

/-! ### Claim C3 -/

/-- C3 counterexample: at x = [0,1,2], y = [0,1,0] (n = 2 intervals) the
returned `c` array is [0, -3/2, 0], of length 3 = n+1, not n. -/
theorem C3_counterexample_c_has_length_succ_n :
    computeCubicPolyCoefficients [some 0, some 1, some 2] [some 0, some 1, some 0]
      = .ok ([some (3/2), some 0], [some 0, some (-(3/2)), some 0], [some (-(1/2)), some (1/2)]) ∧
    ([some 0, some (-(3/2)), some 0] : List Fl).length ≠
      ([some 0, some 1, some 2] : List Fl).length - 1 := by
  constructor
  · norm_num [computeCubicPolyCoefficients, cubicB, cubicC, cubicD, cubicH, MathArrays_checkOrder, checkOrderGo, muz, cIdx,
      List.range_succ]
  · decide

/-- C3 (amended): on success, `computeCubicPolyCoefficients` returns `b` and
`d` of length n = (number of points) - 1 and `c` of length n + 1 (the natural
boundary slot `c[n] = 0` is included in the returned array). -/
theorem C3_cubic_coefficient_array_lengths (x y b c d : List Fl)
    (h : computeCubicPolyCoefficients x y = .ok (b, c, d)) :
    b.length = x.length - 1 ∧ c.length = x.length ∧ d.length = x.length - 1 := by
  unfold computeCubicPolyCoefficients at h
  split at h
  · exact absurd h (by simp)
  · next hlen =>
    split at h
    · exact absurd h (by simp)
    · next hcnt =>
      split at h
      · exact absurd h (by simp)
      · simp only [Except.ok.injEq, Prod.mk.injEq] at h
        obtain ⟨hb, hc, hd⟩ := h
        subst hb; subst hc; subst hd
        refine ⟨by simp [cubicB], ?_, by simp [cubicD]⟩
        simp only [cubicC, List.length_map, List.length_range]
        omega

/-- Witness for C3: the amended length statement at x = [0,1,2], y = [0,1,0]. -/
theorem C3_cubic_coefficient_array_lengths_witness :
    (([some (3/2), some 0] : List Fl).length = 2 ∧
     ([some 0, some (-(3/2)), some 0] : List Fl).length = 3 ∧
     ([some (-(1/2)), some (1/2)] : List Fl).length = 2) := by
  have h := C3_cubic_coefficient_array_lengths [some 0, some 1, some 2] [some 0, some 1, some 0]
    [some (3/2), some 0] [some 0, some (-(3/2)), some 0] [some (-(1/2)), some (1/2)]
    (by norm_num [computeCubicPolyCoefficients, cubicB, cubicC, cubicD, cubicH, MathArrays_checkOrder, checkOrderGo, muz, cIdx,
      List.range_succ])
  exact ⟨h.1.trans (by simp), h.2.1.trans (by simp), h.2.2.trans (by simp)⟩

/-! ### Claim C10 -/

/-- C10: the strict-monotonicity check accepts the NaN-containing sequence
[0, NaN, 2] because every `<=` comparison against NaN is false; the
nearest-neighbor constructor therefore succeeds on it, and the violation only
surfaces as the invalid-value error when a query inspects the NaN during
binary search. -/
theorem C10_nan_passes_order_check :
    MathArrays_checkOrder [some 0, none, some 2] = .ok () ∧
    (createNearestNeighborInterpolator [some 0, none, some 2]
      [some 5, some 6, some 7]).isOk = true ∧
    evalAt (createNearestNeighborInterpolator [some 0, none, some 2]
      [some 5, some 6, some 7]) (some 1) = .error .invalidValue := by
  refine ⟨by norm_num [MathArrays_checkOrder, checkOrderGo], ?_, ?_⟩
  · norm_num [createNearestNeighborInterpolator, MathArrays_checkOrder, checkOrderGo,
      Except.isOk, Except.toBool]
  · norm_num [evalAt, createNearestNeighborInterpolator, MathArrays_checkOrder, checkOrderGo,
      nearestEval, Arrays_binarySearch, bsGo]

/-! ### Claim C7 -/

theorem bsGo_error_invalidValue (a : List Fl) (key : Fl) :
    ∀ fuel low high1 e, bsGo a key fuel low high1 = .error e → e = .invalidValue := by
  intro fuel
  induction fuel with
  | zero => intro low high1 e h; exact absurd h (by simp [bsGo])
  | succ fuel ih =>
    intro low high1 e h
    simp only [bsGo] at h
    by_cases h1 : low < high1
    · rw [if_pos h1] at h
      by_cases h2 : flt (a.getD ((low + high1 - 1) / 2) none) key
      · rw [if_pos h2] at h
        exact ih _ _ _ h
      · rw [if_neg h2] at h
        by_cases h3 : fgt (a.getD ((low + high1 - 1) / 2) none) key
        · rw [if_pos h3] at h
          exact ih _ _ _ h
        · rw [if_neg h3] at h
          by_cases h4 : feq (a.getD ((low + high1 - 1) / 2) none) key
          · rw [if_pos h4] at h
            exact absurd h (by simp)
          · rw [if_neg h4] at h
            injection h with h'
            exact h'.symm
    · rw [if_neg h1] at h
      exact absurd h (by simp)

theorem binarySearch_error_invalidValue (a : List Fl) (key : Fl) (e : Err)
    (h : Arrays_binarySearch a key = .error e) : e = .invalidValue :=
  bsGo_error_invalidValue a key _ _ _ e h

theorem bsGo_map_some_no_error (xs : List ℚ) (q : ℚ) :
    ∀ fuel low high1, high1 ≤ xs.length →
      ∀ e, bsGo (xs.map some) (some q) fuel low high1 ≠ .error e := by
  intro fuel
  induction fuel with
  | zero => intro low high1 _ e h; exact absurd h (by simp [bsGo])
  | succ fuel ih =>
    intro low high1 hlen e h
    simp only [bsGo] at h
    by_cases h1 : low < high1
    · rw [if_pos h1] at h
      rw [getD_map_some xs ((low + high1 - 1) / 2) (by omega)] at h
      by_cases h2 : flt (some (xs.getD ((low + high1 - 1) / 2) 0)) (some q)
      · rw [if_pos h2] at h
        exact ih _ _ hlen e h
      · rw [if_neg h2] at h
        by_cases h3 : fgt (some (xs.getD ((low + high1 - 1) / 2) 0)) (some q)
        · rw [if_pos h3] at h
          exact ih _ _ (by omega) e h
        · rw [if_neg h3] at h
          have h4 : feq (some (xs.getD ((low + high1 - 1) / 2) 0)) (some q) := by
            rw [flt_some_some] at h2
            rw [fgt_some_some] at h3
            rw [feq_some_some]
            linarith [not_lt.mp h2, not_lt.mp h3]
          rw [if_pos h4] at h
          exact absurd h (by simp)
    · rw [if_neg h1] at h
      exact absurd h (by simp)

theorem binarySearch_map_some_no_error (xs : List ℚ) (q : ℚ) (e : Err) :
    Arrays_binarySearch (xs.map some) (some q) ≠ .error e := by
  unfold Arrays_binarySearch
  exact bsGo_map_some_no_error xs q _ _ _ (by simp) e

theorem binarySearch_nan_key (a : List Fl) (h : a ≠ []) :
    Arrays_binarySearch a none = .error .invalidValue := by
  cases a with
  | nil => exact absurd rfl h
  | cons v rest =>
    simp only [Arrays_binarySearch, List.length_cons, bsGo]
    rw [if_pos (by omega)]
    simp [flt_none_right, fgt_none_right, feq_none_right]

theorem checkOrderGo_error (e : Err) :
    ∀ (prev : Fl) (l : List Fl), checkOrderGo prev l = .error e → e = .order := by
  intro prev l
  induction l generalizing prev with
  | nil => intro h; exact absurd h (by simp [checkOrderGo])
  | cons v rest ih =>
    intro h
    simp only [checkOrderGo] at h
    by_cases hv : fle v prev
    · rw [if_pos hv] at h
      injection h with h'
      exact h'.symm
    · rw [if_neg hv] at h
      exact ih v h

theorem checkOrder_error (l : List Fl) (e : Err)
    (h : MathArrays_checkOrder l = .error e) : e = .order := by
  cases l with
  | nil => exact absurd h (by simp [MathArrays_checkOrder])
  | cons v rest => exact checkOrderGo_error e v rest h

theorem createPolynomialFunction_error (c : List Fl) (e : Err)
    (h : createPolynomialFunction c = .error e) : e = .emptyCoefficients := by
  unfold createPolynomialFunction at h
  split at h
  · injection h with h'
    exact h'.symm
  · exact absurd h (by simp)

theorem mapM_error_pred {α β : Type} (f : α → Except Err β) (P : Err → Prop)
    (hP : ∀ a e', f a = .error e' → P e') :
    ∀ (l : List α) (e : Err), l.mapM f = .error e → P e := by
  intro l
  induction l with
  | nil => intro e h; exact absurd h (by simp [List.mapM, List.mapM.loop])
  | cons a t ih =>
    intro e h
    rw [List.mapM_cons] at h
    cases hfa : f a with
    | error e' =>
      rw [hfa] at h
      simp only [bind_eq_bind, Except.bind] at h
      injection h with h'
      rw [← h']
      exact hP a e' hfa
    | ok b =>
      rw [hfa] at h
      simp only [bind_eq_bind, Except.bind] at h
      cases hmt : t.mapM f with
      | error e' =>
        rw [hmt] at h
        simp only [Except.bind] at h
        injection h with h'
        rw [← h']
        exact ih e' hmt
      | ok bs =>
        rw [hmt] at h
        simp only [Except.bind, pure_eq_ok] at h
        exact absurd h (by simp)

theorem splineEval_error (knots : List Fl) (polys : List (Fl → Fl)) (x : Fl) (e : Err)
    (h : splineEval knots polys x = .error e) : e = .invalidValue := by
  unfold splineEval at h
  split at h
  next e' heq =>
    injection h with h'
    rw [← h']
    exact binarySearch_error_invalidValue knots x e' heq
  next r heq => exact absurd h (by simp)

theorem createPolynomialSplineFunction_error (knots : List Fl) (polys : List (Fl → Fl))
    (e : Err) (h : createPolynomialSplineFunction knots polys = .error e) :
    e ≠ .invalidValue := by
  unfold createPolynomialSplineFunction at h
  split at h
  · injection h with h'
    rw [← h']
    decide
  · split at h
    · injection h with h'
      rw [← h']
      decide
    · split at h
      next e' heq =>
        injection h with h'
        rw [← h', checkOrder_error _ _ heq]
        decide
      next heq => exact absurd h (by simp)

theorem createPolynomialSplineFunction_ok_shape (knots : List Fl) (polys : List (Fl → Fl))
    (f : Fl → Except Err Fl) (h : createPolynomialSplineFunction knots polys = .ok f) :
    f = splineEval knots polys := by
  unfold createPolynomialSplineFunction at h
  split at h
  · exact absurd h (by simp)
  · split at h
    · exact absurd h (by simp)
    · split at h
      next e' heq => exact absurd h (by simp)
      next heq =>
        injection h with h'
        exact h'.symm

theorem nearestEval_error (xv yv : List Fl) (x : Fl) (e : Err)
    (h : nearestEval xv yv x = .error e) : e = .invalidValue := by
  unfold nearestEval at h
  split at h
  next e' heq =>
    injection h with h'
    rw [← h']
    exact binarySearch_error_invalidValue xv x e' heq
  next r heq =>
    by_cases h1 : 0 ≤ r
    · rw [if_pos h1] at h
      exact absurd h (by simp)
    · rw [if_neg h1] at h
      by_cases h2 : (-r - 1 : Int) = 0
      · rw [if_pos h2] at h
        exact absurd h (by simp)
      · rw [if_neg h2] at h
        by_cases h3 : (xv.length : Int) ≤ -r - 1
        · rw [if_pos h3] at h
          exact absurd h (by simp)
        · rw [if_neg h3] at h
          exact absurd h (by simp)

theorem computeCubicPolyCoefficients_error (x y : List Fl) (e : Err)
    (h : computeCubicPolyCoefficients x y = .error e) : e ≠ .invalidValue := by
  unfold computeCubicPolyCoefficients at h
  split at h
  · injection h with h'
    rw [← h']
    decide
  · split at h
    · injection h with h'
      rw [← h']
      decide
    · split at h
      next e' heq =>
        injection h with h'
        rw [← h', checkOrder_error _ _ heq]
        decide
      next => exact absurd h (by simp)

theorem createNearestNeighborInterpolator_cases (x y : List Fl) :
    (∀ e, createNearestNeighborInterpolator x y = .error e → e ≠ .invalidValue) ∧
    (∀ f q e', createNearestNeighborInterpolator x y = .ok f → f q = .error e' →
      e' = .invalidValue) := by
  constructor
  · intro e h
    unfold createNearestNeighborInterpolator at h
    split at h
    · injection h with h'
      rw [← h']
      decide
    · split at h
      · exact absurd h (by simp)
      · split at h
        · exact absurd h (by simp)
        · split at h
          next e' heq =>
            injection h with h'
            rw [← h', checkOrder_error _ _ heq]
            decide
          next => exact absurd h (by simp)
  · intro f q e' hok hf
    unfold createNearestNeighborInterpolator at hok
    split at hok
    · exact absurd hok (by simp)
    · split at hok
      · injection hok with h'
        rw [← h'] at hf
        exact absurd hf (by simp)
      · split at hok
        · injection hok with h'
          rw [← h'] at hf
          exact absurd hf (by simp)
        · split at hok
          next e'' heq => exact absurd hok (by simp)
          next =>
            injection hok with h'
            rw [← h'] at hf
            exact nearestEval_error x y q e' hf

theorem createLinearInterpolator_cases (x y : List Fl) :
    (∀ e, createLinearInterpolator x y = .error e → e ≠ .invalidValue) ∧
    (∀ f q e', createLinearInterpolator x y = .ok f → f q = .error e' → e' = .invalidValue) := by
  constructor
  · intro e h
    unfold createLinearInterpolator at h
    split at h
    · injection h with h'
      rw [← h']
      decide
    · split at h
      · injection h with h'
        rw [← h']
        decide
      · split at h
        next e' heq =>
          injection h with h'
          rw [← h', checkOrder_error _ _ heq]
          decide
        next =>
          simp only [] at h
          split at h
          next e' heq =>
            injection h with h'
            rw [← h']
            have := mapM_error_pred _ (fun e'' => e'' = Err.emptyCoefficients)
              (fun a e'' ha => createPolynomialFunction_error _ e'' ha) _ e' heq
            rw [this]
            decide
          next polys heq => exact createPolynomialSplineFunction_error _ _ e h
  · intro f q e' hok hf
    unfold createLinearInterpolator at hok
    split at hok
    · exact absurd hok (by simp)
    · split at hok
      · exact absurd hok (by simp)
      · split at hok
        next e'' heq => exact absurd hok (by simp)
        next =>
          simp only [] at hok
          split at hok
          next e'' heq => exact absurd hok (by simp)
          next polys heq =>
            rw [createPolynomialSplineFunction_ok_shape _ _ f hok] at hf
            exact splineEval_error _ _ q e' hf

theorem createCubicSplineInterpolator_cases (x y : List Fl) :
    (∀ e, createCubicSplineInterpolator x y = .error e → e ≠ .invalidValue) ∧
    (∀ f q e', createCubicSplineInterpolator x y = .ok f → f q = .error e' →
      e' = .invalidValue) := by
  constructor
  · intro e h
    unfold createCubicSplineInterpolator at h
    split at h
    next e' heq =>
      injection h with h'
      rw [← h']
      exact computeCubicPolyCoefficients_error x y e' heq
    next bcd heq =>
      simp only [] at h
      split at h
      next e' heq2 =>
        injection h with h'
        rw [← h']
        have := mapM_error_pred _ (fun e'' => e'' = Err.emptyCoefficients)
          (fun a e'' ha => createPolynomialFunction_error _ e'' ha) _ e' heq2
        rw [this]
        decide
      next polys heq2 => exact createPolynomialSplineFunction_error _ _ e h
  · intro f q e' hok hf
    unfold createCubicSplineInterpolator at hok
    split at hok
    next e'' heq => exact absurd hok (by simp)
    next bcd heq =>
      simp only [] at hok
      split at hok
      next e'' heq2 => exact absurd hok (by simp)
      next polys heq2 =>
        rw [createPolynomialSplineFunction_ok_shape _ _ f hok] at hf
        exact splineEval_error _ _ q e' hf

theorem interpolateHermiteSorted_cases (xv yv fd : List Fl) :
    (∀ e, interpolateHermiteSorted xv yv fd = .error e → e ≠ .invalidValue) ∧
    (∀ f q e', interpolateHermiteSorted xv yv fd = .ok f → f q = .error e' →
      e' = .invalidValue) := by
  constructor
  · intro e h
    unfold interpolateHermiteSorted at h
    split at h
    · injection h with h'
      rw [← h']
      decide
    · split at h
      · injection h with h'
        rw [← h']
        decide
      · split at h
        next e' heq =>
          injection h with h'
          rw [← h']
          have := mapM_error_pred _ (fun e'' => e'' = Err.emptyCoefficients)
            (fun a e'' ha => createPolynomialFunction_error _ e'' ha) _ e' heq
          rw [this]
          decide
        next polys heq => exact createPolynomialSplineFunction_error _ _ e h
  · intro f q e' hok hf
    unfold interpolateHermiteSorted at hok
    split at hok
    · exact absurd hok (by simp)
    · split at hok
      · exact absurd hok (by simp)
      · split at hok
        next e'' heq => exact absurd hok (by simp)
        next polys heq =>
          rw [createPolynomialSplineFunction_ok_shape _ _ f hok] at hf
          exact splineEval_error _ _ q e' hf

theorem createAkimaSplineInterpolator_cases (x y : List Fl) :
    (∀ e, createAkimaSplineInterpolator x y = .error e → e ≠ .invalidValue) ∧
    (∀ f q e', createAkimaSplineInterpolator x y = .ok f → f q = .error e' →
      e' = .invalidValue) := by
  constructor
  · intro e h
    unfold createAkimaSplineInterpolator at h
    split at h
    · injection h with h'
      rw [← h']
      decide
    · split at h
      · injection h with h'
        rw [← h']
        decide
      · split at h
        next e' heq =>
          injection h with h'
          rw [← h', checkOrder_error _ _ heq]
          decide
        next => exact (interpolateHermiteSorted_cases _ _ _).1 e h
  · intro f q e' hok hf
    unfold createAkimaSplineInterpolator at hok
    split at hok
    · exact absurd hok (by simp)
    · split at hok
      · exact absurd hok (by simp)
      · split at hok
        next e'' heq => exact absurd hok (by simp)
        next => exact (interpolateHermiteSorted_cases _ _ _).2 f q e' hok hf

theorem evalAt_ok_case {create : Except Err (Fl → Except Err Fl)}
    (hcases : ∀ f q e', create = .ok f → f q = .error e' → e' = .invalidValue)
    (q : Fl) (e : Err) (hok : create.isOk = true) (h : evalAt create q = .error e) :
    e = .invalidValue := by
  cases hc : create with
  | error e' =>
    rw [hc] at hok
    exact absurd hok (by simp [Except.isOk, Except.toBool])
  | ok f =>
    rw [hc] at h
    exact hcases f q e hc h

/-- C7: the binary search raises the invalid-value error exactly when a
comparison decides neither less-than, greater-than nor equality: every error
it raises is the invalid-value error, an all-finite search never errors, and
a NaN key on a nonempty array always errors.  Moreover the error is raised
during evaluation of a query, never at construction time: every constructor
error is one of the construction-time errors (dimension mismatch,
insufficient points/knots, order, empty coefficients) and never
invalid-value, while any error raised by a successfully returned evaluator
is the invalid-value error. -/
theorem C7_invalid_value_discipline :
    (∀ (a : List Fl) (key : Fl) (e : Err), Arrays_binarySearch a key = .error e →
      e = .invalidValue) ∧
    (∀ (xs : List ℚ) (q : ℚ) (e : Err), Arrays_binarySearch (xs.map some) (some q) ≠ .error e) ∧
    (∀ a : List Fl, a ≠ [] → Arrays_binarySearch a none = .error .invalidValue) ∧
    (∀ x y (e : Err), createNearestNeighborInterpolator x y = .error e → e ≠ .invalidValue) ∧
    (∀ x y (e : Err), createLinearInterpolator x y = .error e → e ≠ .invalidValue) ∧
    (∀ x y (e : Err), createCubicSplineInterpolator x y = .error e → e ≠ .invalidValue) ∧
    (∀ x y (e : Err), createAkimaSplineInterpolator x y = .error e → e ≠ .invalidValue) ∧
    (∀ x y (q : Fl) (e : Err), (createNearestNeighborInterpolator x y).isOk = true →
      evalAt (createNearestNeighborInterpolator x y) q = .error e → e = .invalidValue) ∧
    (∀ x y (q : Fl) (e : Err), (createLinearInterpolator x y).isOk = true →
      evalAt (createLinearInterpolator x y) q = .error e → e = .invalidValue) ∧
    (∀ x y (q : Fl) (e : Err), (createCubicSplineInterpolator x y).isOk = true →
      evalAt (createCubicSplineInterpolator x y) q = .error e → e = .invalidValue) ∧
    (∀ x y (q : Fl) (e : Err), (createAkimaSplineInterpolator x y).isOk = true →
      evalAt (createAkimaSplineInterpolator x y) q = .error e → e = .invalidValue) :=
  ⟨binarySearch_error_invalidValue, binarySearch_map_some_no_error, binarySearch_nan_key,
    fun x y => (createNearestNeighborInterpolator_cases x y).1,
    fun x y => (createLinearInterpolator_cases x y).1,
    fun x y => (createCubicSplineInterpolator_cases x y).1,
    fun x y => (createAkimaSplineInterpolator_cases x y).1,
    fun x y q e => evalAt_ok_case ((createNearestNeighborInterpolator_cases x y).2) q e,
    fun x y q e => evalAt_ok_case ((createLinearInterpolator_cases x y).2) q e,
    fun x y q e => evalAt_ok_case ((createCubicSplineInterpolator_cases x y).2) q e,
    fun x y q e => evalAt_ok_case ((createAkimaSplineInterpolator_cases x y).2) q e⟩

theorem C7_invalid_value_discipline_witness :
    Err.invalidValue = Err.invalidValue ∧
    Arrays_binarySearch [some 2] none = .error .invalidValue ∧
    Err.order ≠ Err.invalidValue ∧
    Err.invalidValue = Err.invalidValue := by
  refine ⟨C7_invalid_value_discipline.1 [none] (some 0) .invalidValue
      (by norm_num [Arrays_binarySearch, bsGo]),
    C7_invalid_value_discipline.2.2.1 [some 2] (by simp),
    C7_invalid_value_discipline.2.2.2.2.1 [some 1, some 1] [some 0, some 0] .order
      (by norm_num [createLinearInterpolator, MathArrays_checkOrder, checkOrderGo]),
    C7_invalid_value_discipline.2.2.2.2.2.2.2.1 [some 0, some 1] [some 2, some 3] none
      .invalidValue
      (by norm_num [createNearestNeighborInterpolator, MathArrays_checkOrder, checkOrderGo,
        Except.isOk, Except.toBool])
      (by norm_num [evalAt, createNearestNeighborInterpolator, MathArrays_checkOrder,
        checkOrderGo, nearestEval, Arrays_binarySearch, bsGo])⟩

end CMI

namespace CMI

theorem muz_spec (xs ys : List ℚ) (h : List Fl) (hs : xs.Sorted (· < ·))
    (hlen : xs.length = ys.length) (h3 : 3 ≤ xs.length)
    (hh : ∀ k, k < xs.length - 1 → h.getD k none = some (xs.getD (k + 1) 0 - xs.getD k 0)) :
    ∀ i, i ≤ xs.length - 2 → ∃ mq zq : ℚ,
      muz (xs.map some) (ys.map some) h i = (some mq, some zq) ∧ 0 ≤ mq ∧ mq < 1 := by
  intro i
  induction i with
  | zero => exact fun _ => ⟨0, 0, rfl, le_refl 0, by norm_num⟩
  | succ i ih =>
    intro hi1
    obtain ⟨mq, zq, hmz, hm0, hm1⟩ := ih (by omega)
    have hpos1 : 0 < xs.getD (i + 1) 0 - xs.getD i 0 :=
      sub_pos.mpr (sorted_getD_lt xs hs i (i + 1) (by omega) (by omega))
    have hpos2 : 0 < xs.getD (i + 2) 0 - xs.getD (i + 1) 0 :=
      sub_pos.mpr (sorted_getD_lt xs hs (i + 1) (i + 2) (by omega) (by omega))
    have htele : xs.getD (i + 2) 0 - xs.getD i 0 =
        (xs.getD (i + 1) 0 - xs.getD i 0) + (xs.getD (i + 2) 0 - xs.getD (i + 1) 0) := by ring
    simp only [muz, hmz]
    rw [hh i (by omega), hh (i + 1) (by omega), getD_map_some xs (i + 2) (by omega),
      getD_map_some xs i (by omega), getD_map_some ys (i + 2) (by omega),
      getD_map_some ys (i + 1) (by omega), getD_map_some ys i (by omega)]
    simp only [fsub_some_some, fmul_some_some, fadd_some_some]
    set h0 := xs.getD (i + 1) 0 - xs.getD i 0 with hh0
    set h1 := xs.getD (i + 2) 0 - xs.getD (i + 1) 0 with hh1
    have hgpos : 0 < 2 * (xs.getD (i + 2) 0 - xs.getD i 0) - h0 * mq := by
      rw [htele]
      nlinarith
    have hgne : 2 * (xs.getD (i + 2) 0 - xs.getD i 0) - h0 * mq ≠ 0 := ne_of_gt hgpos
    have hg1 : h1 < 2 * (xs.getD (i + 2) 0 - xs.getD i 0) - h0 * mq := by
      rw [htele]
      nlinarith
    simp only [fdiv_some_some, if_neg hgne, if_neg (ne_of_gt (mul_pos hpos1 hpos2))]
    simp only [fsub_some_some, fdiv_some_some, if_neg hgne]
    refine ⟨_, _, rfl, ?_, ?_⟩
    · exact div_nonneg (le_of_lt hpos2) (le_of_lt hgpos)
    · exact (div_lt_one hgpos).mpr hg1

end CMI

namespace CMI

theorem cubicH_getD (xs : List ℚ) (n k : ℕ) (hn : n ≤ xs.length - 1) (hk : k < n) :
    (cubicH (xs.map some) n).getD k none = some (xs.getD (k + 1) 0 - xs.getD k 0) := by
  unfold cubicH
  rw [getD_range_map _ _ k hk, getD_map_some xs (k + 1) (by omega),
    getD_map_some xs k (by omega), fsub_some_some]

theorem cIdx_some (xs ys : List ℚ) (hs : xs.Sorted (· < ·))
    (hlen : xs.length = ys.length) (h3 : 3 ≤ xs.length) :
    ∀ k, k ≤ xs.length - 1 → ∃ cq, cIdx (xs.map some) (ys.map some)
      (cubicH (xs.map some) (xs.length - 1)) (xs.length - 1) k = some cq := by
  intro k
  induction k with
  | zero => exact fun _ => ⟨0, rfl⟩
  | succ k ih =>
    intro hk
    obtain ⟨cq, hcq⟩ := ih (by omega)
    obtain ⟨mq, zq, hmz, _, _⟩ := muz_spec xs ys (cubicH (xs.map some) (xs.length - 1)) hs hlen h3
      (fun kk hkk => cubicH_getD xs (xs.length - 1) kk (by omega) hkk)
      (xs.length - 1 - (k + 1)) (by omega)
    simp only [cIdx, hmz, hcq, fsub_some_some, fmul_some_some]
    exact ⟨_, rfl⟩

theorem cubicC_getD (xs ys : List ℚ) (n j : ℕ) (hj : j ≤ n) :
    (cubicC (xs.map some) (ys.map some) n).getD j none
      = cIdx (xs.map some) (ys.map some) (cubicH (xs.map some) n) n (n - j) := by
  unfold cubicC
  exact getD_range_map _ _ j (by omega) none

theorem cubicC_some (xs ys : List ℚ) (hs : xs.Sorted (· < ·))
    (hlen : xs.length = ys.length) (h3 : 3 ≤ xs.length) (j : ℕ) (hj : j ≤ xs.length - 1) :
    ∃ γ, (cubicC (xs.map some) (ys.map some) (xs.length - 1)).getD j none = some γ := by
  obtain ⟨cq, hcq⟩ := cIdx_some xs ys hs hlen h3 (xs.length - 1 - j) (by omega)
  exact ⟨cq, by rw [cubicC_getD xs ys _ j hj, hcq]⟩

theorem cubicC_last (xs ys : List ℚ) (n : ℕ) :
    (cubicC (xs.map some) (ys.map some) n).getD n none = some 0 := by
  rw [cubicC_getD xs ys n n (le_refl n), Nat.sub_self]
  rfl

theorem hornerQ_quad (t a b c d : ℚ) :
    hornerQ t [d, c, b, a] = ((d * t + c) * t + b) * t + a := by
  simp only [hornerQ, List.foldl]
  ring

end CMI

namespace CMI

theorem cubicB_getD_val (xs ys : List ℚ) (hs : xs.Sorted (· < ·))
    (hlen : xs.length = ys.length) (j : ℕ) (hj : j < xs.length - 1) (γ γ1 : ℚ)
    (hγ : (cubicC (xs.map some) (ys.map some) (xs.length - 1)).getD j none = some γ)
    (hγ1 : (cubicC (xs.map some) (ys.map some) (xs.length - 1)).getD (j + 1) none = some γ1) :
    (cubicB (xs.map some) (ys.map some) (xs.length - 1)).getD j none
      = some ((ys.getD (j + 1) 0 - ys.getD j 0) / (xs.getD (j + 1) 0 - xs.getD j 0)
        - (xs.getD (j + 1) 0 - xs.getD j 0) * (γ1 + 2 * γ) / 3) := by
  have hΔne : xs.getD (j + 1) 0 - xs.getD j 0 ≠ 0 :=
    ne_of_gt (sub_pos.mpr (sorted_getD_lt xs hs j (j + 1) (by omega) (by omega)))
  unfold cubicB
  rw [getD_range_map _ _ j (by omega), cubicH_getD xs _ j (by omega) (by omega),
    getD_map_some ys (j + 1) (by omega), getD_map_some ys j (by omega), hγ, hγ1]
  simp only [fsub_some_some, fmul_some_some, fadd_some_some, fdiv_some_some,
    if_neg hΔne, if_neg (by norm_num : (3:ℚ) ≠ 0)]

theorem cubicD_getD_val (xs ys : List ℚ) (hs : xs.Sorted (· < ·))
    (hlen : xs.length = ys.length) (j : ℕ) (hj : j < xs.length - 1) (γ γ1 : ℚ)
    (hγ : (cubicC (xs.map some) (ys.map some) (xs.length - 1)).getD j none = some γ)
    (hγ1 : (cubicC (xs.map some) (ys.map some) (xs.length - 1)).getD (j + 1) none = some γ1) :
    (cubicD (xs.map some) (ys.map some) (xs.length - 1)).getD j none
      = some ((γ1 - γ) / (3 * (xs.getD (j + 1) 0 - xs.getD j 0))) := by
  have hΔne : xs.getD (j + 1) 0 - xs.getD j 0 ≠ 0 :=
    ne_of_gt (sub_pos.mpr (sorted_getD_lt xs hs j (j + 1) (by omega) (by omega)))
  unfold cubicD
  rw [getD_range_map _ _ j (by omega), cubicH_getD xs _ j (by omega) (by omega), hγ, hγ1]
  simp only [fsub_some_some, fmul_some_some, fdiv_some_some,
    if_neg (mul_ne_zero (by norm_num : (3:ℚ) ≠ 0) hΔne)]

theorem map_some_list4 (a b c d : ℚ) :
    ([a, b, c, d] : List ℚ).map some = [some a, some b, some c, some d] := by simp

theorem reverse_list4 {α : Type} (a b c d : α) : ([a, b, c, d] : List α).reverse = [d, c, b, a] := by simp

theorem cubic_last_knot_identity (dx y0 y1 γ : ℚ) (hdx : dx ≠ 0) :
    (((0 - γ) / (3 * dx) * dx + γ) * dx + ((y1 - y0) / dx - dx * (0 + 2 * γ) / 3)) * dx + y0
      = y1 := by
  field_simp
  ring

theorem cubic_segment_eval (xs ys : List ℚ) (hs : xs.Sorted (· < ·))
    (hlen : xs.length = ys.length) (h3 : 3 ≤ xs.length) (j : ℕ) (hj : j < xs.length - 1) :
    polyEval (trimRev ([(ys.map some).getD j none,
        (cubicB (xs.map some) (ys.map some) (xs.length - 1)).getD j none,
        (cubicC (xs.map some) (ys.map some) (xs.length - 1)).getD j none,
        (cubicD (xs.map some) (ys.map some) (xs.length - 1)).getD j none]).reverse) (some 0)
      = some (ys.getD j 0) ∧
    (j = xs.length - 2 →
      polyEval (trimRev ([(ys.map some).getD j none,
        (cubicB (xs.map some) (ys.map some) (xs.length - 1)).getD j none,
        (cubicC (xs.map some) (ys.map some) (xs.length - 1)).getD j none,
        (cubicD (xs.map some) (ys.map some) (xs.length - 1)).getD j none]).reverse)
        (some (xs.getD (j + 1) 0 - xs.getD j 0)) = some (ys.getD (j + 1) 0)) := by
  obtain ⟨γ, hγ⟩ := cubicC_some xs ys hs hlen h3 j (by omega)
  obtain ⟨γ1, hγ1⟩ := cubicC_some xs ys hs hlen h3 (j + 1) (by omega)
  have hΔne : xs.getD (j + 1) 0 - xs.getD j 0 ≠ 0 :=
    ne_of_gt (sub_pos.mpr (sorted_getD_lt xs hs j (j + 1) (by omega) (by omega)))
  constructor
  · rw [getD_map_some ys j (by omega), hγ,
      cubicB_getD_val xs ys hs hlen j hj γ γ1 hγ hγ1,
      cubicD_getD_val xs ys hs hlen j hj γ γ1 hγ hγ1,
      ← map_some_list4, polyEval_map_some _ _ (by simp), reverse_list4]
    rw [hornerQ_quad]
    exact congrArg some (by ring)
  · intro hj2
    have hγ1' : (cubicC (xs.map some) (ys.map some) (xs.length - 1)).getD (j + 1) none
        = some 0 := by
      rw [show j + 1 = xs.length - 1 by omega]
      exact cubicC_last xs ys (xs.length - 1)
    rw [getD_map_some ys j (by omega), hγ,
      cubicB_getD_val xs ys hs hlen j hj γ 0 hγ hγ1',
      cubicD_getD_val xs ys hs hlen j hj γ 0 hγ hγ1',
      ← map_some_list4, polyEval_map_some _ _ (by simp), reverse_list4]
    rw [hornerQ_quad]
    exact congrArg some (cubic_last_knot_identity _ _ _ γ hΔne)

end CMI

namespace CMI

theorem computeCubicPolyCoefficients_ok (xs ys : List ℚ) (hs : xs.Sorted (· < ·))
    (hlen : xs.length = ys.length) (h3 : 3 ≤ xs.length) :
    computeCubicPolyCoefficients (xs.map some) (ys.map some) =
      .ok (cubicB (xs.map some) (ys.map some) (xs.length - 1),
           cubicC (xs.map some) (ys.map some) (xs.length - 1),
           cubicD (xs.map some) (ys.map some) (xs.length - 1)) := by
  unfold computeCubicPolyCoefficients
  simp only [List.length_map]
  rw [if_neg (by omega), if_neg (by omega), checkOrder_sorted xs hs]

theorem createPolynomialFunction_ok_of_ne_nil (c : List Fl) (h : c ≠ []) :
    createPolynomialFunction c = .ok (polyEval (trimRev c.reverse)) := by
  unfold createPolynomialFunction
  rw [if_neg (by simpa [List.length_eq_zero] using h)]

theorem createCubicSplineInterpolator_ok (xs ys : List ℚ) (hs : xs.Sorted (· < ·))
    (hlen : xs.length = ys.length) (h3 : 3 ≤ xs.length) :
    createCubicSplineInterpolator (xs.map some) (ys.map some) =
      .ok (splineEval (xs.map some) ((List.range (xs.length - 1)).map (fun i =>
        polyEval (trimRev ([(ys.map some).getD i none,
          (cubicB (xs.map some) (ys.map some) (xs.length - 1)).getD i none,
          (cubicC (xs.map some) (ys.map some) (xs.length - 1)).getD i none,
          (cubicD (xs.map some) (ys.map some) (xs.length - 1)).getD i none]).reverse)))) := by
  unfold createCubicSplineInterpolator
  rw [computeCubicPolyCoefficients_ok xs ys hs hlen h3]
  simp only [List.length_map]
  rw [mapM_ok _ (fun i =>
    polyEval (trimRev ([(ys.map some).getD i none,
      (cubicB (xs.map some) (ys.map some) (xs.length - 1)).getD i none,
      (cubicC (xs.map some) (ys.map some) (xs.length - 1)).getD i none,
      (cubicD (xs.map some) (ys.map some) (xs.length - 1)).getD i none]).reverse))
    _ (fun a _ => createPolynomialFunction_ok_of_ne_nil _ (by simp))]
  exact createPolynomialSplineFunction_ok xs _ hs (by omega) (by simp)

theorem cubic_at_knot (xs ys : List ℚ) (hs : xs.Sorted (· < ·))
    (hlen : xs.length = ys.length) (h3 : 3 ≤ xs.length) (i : ℕ) (hi : i < xs.length) :
    evalAt (createCubicSplineInterpolator (xs.map some) (ys.map some)) (some (xs.getD i 0))
      = .ok (some (ys.getD i 0)) := by
  rw [createCubicSplineInterpolator_ok xs ys hs hlen h3]
  show splineEval _ _ _ = _
  rw [splineEval_at_knot xs _ i hs hi (by omega) (by simp)]
  rcases (show i < xs.length - 1 ∨ i = xs.length - 1 by omega) with hin | hin
  · have hmin : min i (xs.length - 2) = i := by omega
    rw [hmin, getD_range_map _ _ i (by omega), sub_self]
    exact congrArg Except.ok (cubic_segment_eval xs ys hs hlen h3 i hin).1
  · have hmin : min i (xs.length - 2) = xs.length - 2 := by omega
    rw [hmin, getD_range_map _ _ (xs.length - 2) (by omega)]
    have h2 := (cubic_segment_eval xs ys hs hlen h3 (xs.length - 2) (by omega)).2 rfl
    rw [show xs.length - 2 + 1 = i by omega] at h2
    exact congrArg Except.ok h2

end CMI

namespace CMI

theorem akimaDifferences_getD (xs ys : List ℚ) (hs : xs.Sorted (· < ·))
    (hlen : xs.length = ys.length) (i : ℕ) (hi : i < xs.length - 1) :
    (akimaDifferences (xs.map some) (ys.map some)).getD i none
      = some ((ys.getD (i + 1) 0 - ys.getD i 0) / (xs.getD (i + 1) 0 - xs.getD i 0)) := by
  have hne : xs.getD (i + 1) 0 - xs.getD i 0 ≠ 0 :=
    ne_of_gt (sub_pos.mpr (sorted_getD_lt xs hs i (i + 1) (by omega) (by omega)))
  unfold akimaDifferences
  simp only [List.length_map]
  rw [getD_range_map _ _ i hi, getD_map_some ys (i + 1) (by omega),
    getD_map_some ys i (by omega), getD_map_some xs (i + 1) (by omega),
    getD_map_some xs i (by omega)]
  simp only [fsub_some_some, fdiv_some_some, if_neg hne]

theorem akimaWeights_some (xs ys : List ℚ) (hs : xs.Sorted (· < ·))
    (hlen : xs.length = ys.length) (i : ℕ) (hi : i < xs.length - 1) :
    ∃ w : ℚ, (akimaWeights (xs.map some) (ys.map some)).getD i none = some w ∧ 0 ≤ w := by
  unfold akimaWeights
  simp only [List.length_map]
  rw [getD_range_map _ _ i hi]
  by_cases hi0 : i = 0
  · rw [if_pos hi0]
    exact ⟨0, rfl, le_refl 0⟩
  · rw [if_neg hi0, akimaDifferences_getD xs ys hs hlen i hi,
      akimaDifferences_getD xs ys hs hlen (i - 1) (by omega)]
    rw [fsub_some_some, fabs_some]
    exact ⟨_, rfl, abs_nonneg _⟩

theorem differentiateThreePoint_some (xs ys : List ℚ) (hs : xs.Sorted (· < ·))
    (hlen : xs.length = ys.length) (iD i0 i1 i2 : ℕ)
    (h01 : i0 < i1) (h12 : i1 < i2) (h2 : i2 < xs.length) (hD : iD < xs.length) :
    ∃ v, differentiateThreePoint (xs.map some) (ys.map some) iD i0 i1 i2 = some v := by
  have ht1 : xs.getD i1 0 - xs.getD i0 0 ≠ 0 :=
    ne_of_gt (sub_pos.mpr (sorted_getD_lt xs hs i0 i1 h01 (by omega)))
  have ht2pos : 0 < xs.getD i2 0 - xs.getD i0 0 :=
    sub_pos.mpr (sorted_getD_lt xs hs i0 i2 (by omega) h2)
  have ht12 : xs.getD i1 0 - xs.getD i0 0 < xs.getD i2 0 - xs.getD i0 0 :=
    sub_lt_sub_right (sorted_getD_lt xs hs i1 i2 h12 h2) _
  have hden : (xs.getD i2 0 - xs.getD i0 0) * (xs.getD i2 0 - xs.getD i0 0)
      - (xs.getD i1 0 - xs.getD i0 0) * (xs.getD i2 0 - xs.getD i0 0) ≠ 0 := by
    nlinarith
  unfold differentiateThreePoint
  rw [getD_map_some ys i0 (by omega), getD_map_some ys i1 (by omega),
    getD_map_some ys i2 (by omega), getD_map_some xs iD (by omega),
    getD_map_some xs i0 (by omega), getD_map_some xs i1 (by omega),
    getD_map_some xs i2 (by omega)]
  simp only [fsub_some_some, fdiv_some_some, fmul_some_some, fadd_some_some,
    if_neg ht1, if_neg hden]
  exact ⟨_, rfl⟩

theorem EPSILON_pos : 0 < EPSILON := by norm_num [EPSILON]

theorem akimaFirstDerivatives_some (xs ys : List ℚ) (hs : xs.Sorted (· < ·))
    (hlen : xs.length = ys.length) (h5 : 5 ≤ xs.length) (i : ℕ) (hi : i < xs.length) :
    ∃ v, (akimaFirstDerivatives (xs.map some) (ys.map some)).getD i none = some v := by
  unfold akimaFirstDerivatives
  simp only [List.length_map]
  rw [getD_range_map _ _ i hi]
  by_cases h0 : i = 0
  · rw [if_pos h0]
    exact differentiateThreePoint_some xs ys hs hlen 0 0 1 2 (by omega) (by omega)
      (by omega) (by omega)
  · rw [if_neg h0]
    by_cases h1 : i = 1
    · rw [if_pos h1]
      exact differentiateThreePoint_some xs ys hs hlen 1 0 1 2 (by omega) (by omega)
        (by omega) (by omega)
    · rw [if_neg h1]
      by_cases h2 : i = xs.length - 2
      · rw [if_pos h2]
        exact differentiateThreePoint_some xs ys hs hlen (xs.length - 2) (xs.length - 3)
          (xs.length - 2) (xs.length - 1) (by omega) (by omega) (by omega) (by omega)
      · rw [if_neg h2]
        by_cases h3 : i = xs.length - 1
        · rw [if_pos h3]
          exact differentiateThreePoint_some xs ys hs hlen (xs.length - 1) (xs.length - 3)
            (xs.length - 2) (xs.length - 1) (by omega) (by omega) (by omega) (by omega)
        · rw [if_neg h3]
          have hint : 2 ≤ i ∧ i ≤ xs.length - 3 := by omega
          obtain ⟨wp, hwp, hwp0⟩ := akimaWeights_some xs ys hs hlen (i + 1) (by omega)
          obtain ⟨wm, hwm, hwm0⟩ := akimaWeights_some xs ys hs hlen (i - 1) (by omega)
          rw [hwp, hwm, akimaDifferences_getD xs ys hs hlen i (by omega),
            akimaDifferences_getD xs ys hs hlen (i - 1) (by omega),
            getD_map_some xs (i + 1) (by omega), getD_map_some xs i (by omega),
            getD_map_some xs (i - 1) (by omega)]
          simp only [fabs_some, flt_some_some]
          by_cases hcond : |wp| < EPSILON ∧ |wm| < EPSILON
          · rw [if_pos hcond]
            have hne : xs.getD (i + 1) 0 - xs.getD (i - 1) 0 ≠ 0 :=
              ne_of_gt (sub_pos.mpr (sorted_getD_lt xs hs (i - 1) (i + 1) (by omega) (by omega)))
            simp only [fsub_some_some, fmul_some_some, fadd_some_some, fdiv_some_some,
              if_neg hne]
            exact ⟨_, rfl⟩
          · rw [if_neg hcond]
            have hsum : wp + wm ≠ 0 := by
              rcases not_and_or.mp hcond with hc | hc
              · have hle : EPSILON ≤ |wp| := not_lt.mp hc
                rw [abs_of_nonneg hwp0] at hle
                exact ne_of_gt (by linarith [EPSILON_pos])
              · have hle : EPSILON ≤ |wm| := not_lt.mp hc
                rw [abs_of_nonneg hwm0] at hle
                exact ne_of_gt (by linarith [EPSILON_pos])
            simp only [fmul_some_some, fadd_some_some, fdiv_some_some, if_neg hsum]
            exact ⟨_, rfl⟩

end CMI

namespace CMI

theorem hermite_right_endpoint (w y0 y1 f0 f1 : ℚ) (hw : w ≠ 0) :
    (((2 * (y0 - y1) / w + f0 + f1) / (w * w) * w + (3 * (y1 - y0) / w - 2 * f0 - f1) / w) * w
      + f0) * w + y0 = y1 := by
  field_simp
  ring

theorem hermite_segment_eval (xs ys : List ℚ) (fd : List Fl) (hs : xs.Sorted (· < ·))
    (hlen : xs.length = ys.length) (j : ℕ) (hj : j < xs.length - 1) (f0 f1 : ℚ)
    (hf0 : fd.getD j none = some f0) (hf1 : fd.getD (j + 1) none = some f1) :
    polyEval (trimRev ([(ys.map some).getD j none, fd.getD j none,
      fdiv (fsub (fsub (fdiv (fmul (some 3) (fsub ((ys.map some).getD (j + 1) none)
          ((ys.map some).getD j none)))
        (fsub ((xs.map some).getD (j + 1) none) ((xs.map some).getD j none)))
        (fmul (some 2) (fd.getD j none))) (fd.getD (j + 1) none))
        (fsub ((xs.map some).getD (j + 1) none) ((xs.map some).getD j none)),
      fdiv (fadd (fadd (fdiv (fmul (some 2) (fsub ((ys.map some).getD j none)
          ((ys.map some).getD (j + 1) none)))
        (fsub ((xs.map some).getD (j + 1) none) ((xs.map some).getD j none)))
        (fd.getD j none)) (fd.getD (j + 1) none))
        (fmul (fsub ((xs.map some).getD (j + 1) none) ((xs.map some).getD j none))
              (fsub ((xs.map some).getD (j + 1) none) ((xs.map some).getD j none)))]).reverse)
      (some 0) = some (ys.getD j 0) ∧
    polyEval (trimRev ([(ys.map some).getD j none, fd.getD j none,
      fdiv (fsub (fsub (fdiv (fmul (some 3) (fsub ((ys.map some).getD (j + 1) none)
          ((ys.map some).getD j none)))
        (fsub ((xs.map some).getD (j + 1) none) ((xs.map some).getD j none)))
        (fmul (some 2) (fd.getD j none))) (fd.getD (j + 1) none))
        (fsub ((xs.map some).getD (j + 1) none) ((xs.map some).getD j none)),
      fdiv (fadd (fadd (fdiv (fmul (some 2) (fsub ((ys.map some).getD j none)
          ((ys.map some).getD (j + 1) none)))
        (fsub ((xs.map some).getD (j + 1) none) ((xs.map some).getD j none)))
        (fd.getD j none)) (fd.getD (j + 1) none))
        (fmul (fsub ((xs.map some).getD (j + 1) none) ((xs.map some).getD j none))
              (fsub ((xs.map some).getD (j + 1) none) ((xs.map some).getD j none)))]).reverse)
      (some (xs.getD (j + 1) 0 - xs.getD j 0)) = some (ys.getD (j + 1) 0) := by
  have hΔne : xs.getD (j + 1) 0 - xs.getD j 0 ≠ 0 :=
    ne_of_gt (sub_pos.mpr (sorted_getD_lt xs hs j (j + 1) (by omega) (by omega)))
  constructor
  · rw [getD_map_some ys j (by omega), getD_map_some ys (j + 1) (by omega),
      getD_map_some xs j (by omega), getD_map_some xs (j + 1) (by omega), hf0, hf1]
    simp only [fsub_some_some, fmul_some_some, fadd_some_some, fdiv_some_some,
      if_neg hΔne, if_neg (mul_ne_zero hΔne hΔne)]
    rw [← map_some_list4, polyEval_map_some _ _ (by simp), reverse_list4, hornerQ_quad]
    exact congrArg some (by ring)
  · rw [getD_map_some ys j (by omega), getD_map_some ys (j + 1) (by omega),
      getD_map_some xs j (by omega), getD_map_some xs (j + 1) (by omega), hf0, hf1]
    simp only [fsub_some_some, fmul_some_some, fadd_some_some, fdiv_some_some,
      if_neg hΔne, if_neg (mul_ne_zero hΔne hΔne)]
    rw [← map_some_list4, polyEval_map_some _ _ (by simp), reverse_list4, hornerQ_quad]
    exact congrArg some (hermite_right_endpoint _ _ _ _ _ hΔne)

end CMI

namespace CMI

theorem interpolateHermiteSorted_ok (xs ys : List ℚ) (fd : List Fl) (hs : xs.Sorted (· < ·))
    (hlen : xs.length = ys.length) (h2 : 2 ≤ xs.length) (hfd : fd.length = xs.length) :
    interpolateHermiteSorted (xs.map some) (ys.map some) fd =
      .ok (splineEval (xs.map some) ((List.range (xs.length - 1)).map (fun i =>
        polyEval (trimRev ([(ys.map some).getD i none, fd.getD i none,
          fdiv (fsub (fsub (fdiv (fmul (some 3) (fsub ((ys.map some).getD (i + 1) none)
              ((ys.map some).getD i none)))
            (fsub ((xs.map some).getD (i + 1) none) ((xs.map some).getD i none)))
            (fmul (some 2) (fd.getD i none))) (fd.getD (i + 1) none))
            (fsub ((xs.map some).getD (i + 1) none) ((xs.map some).getD i none)),
          fdiv (fadd (fadd (fdiv (fmul (some 2) (fsub ((ys.map some).getD i none)
              ((ys.map some).getD (i + 1) none)))
            (fsub ((xs.map some).getD (i + 1) none) ((xs.map some).getD i none)))
            (fd.getD i none)) (fd.getD (i + 1) none))
            (fmul (fsub ((xs.map some).getD (i + 1) none) ((xs.map some).getD i none))
                  (fsub ((xs.map some).getD (i + 1) none)
                        ((xs.map some).getD i none)))]).reverse)))) := by
  unfold interpolateHermiteSorted
  simp only [List.length_map]
  rw [if_neg (by omega : ¬ (xs.length ≠ ys.length ∨ xs.length ≠ fd.length)),
    if_neg (by omega : ¬ xs.length < 2)]
  rw [mapM_ok _ (fun i =>
    polyEval (trimRev ([(ys.map some).getD i none, fd.getD i none,
      fdiv (fsub (fsub (fdiv (fmul (some 3) (fsub ((ys.map some).getD (i + 1) none)
          ((ys.map some).getD i none)))
        (fsub ((xs.map some).getD (i + 1) none) ((xs.map some).getD i none)))
        (fmul (some 2) (fd.getD i none))) (fd.getD (i + 1) none))
        (fsub ((xs.map some).getD (i + 1) none) ((xs.map some).getD i none)),
      fdiv (fadd (fadd (fdiv (fmul (some 2) (fsub ((ys.map some).getD i none)
          ((ys.map some).getD (i + 1) none)))
        (fsub ((xs.map some).getD (i + 1) none) ((xs.map some).getD i none)))
        (fd.getD i none)) (fd.getD (i + 1) none))
        (fmul (fsub ((xs.map some).getD (i + 1) none) ((xs.map some).getD i none))
              (fsub ((xs.map some).getD (i + 1) none)
                    ((xs.map some).getD i none)))]).reverse))
    _ (fun a _ => createPolynomialFunction_ok_of_ne_nil _ (by simp))]
  exact createPolynomialSplineFunction_ok xs _ hs h2 (by simp)

theorem createAkimaSplineInterpolator_ok (xs ys : List ℚ) (hs : xs.Sorted (· < ·))
    (hlen : xs.length = ys.length) (h5 : 5 ≤ xs.length) :
    createAkimaSplineInterpolator (xs.map some) (ys.map some) =
      interpolateHermiteSorted (xs.map some) (ys.map some)
        (akimaFirstDerivatives (xs.map some) (ys.map some)) := by
  unfold createAkimaSplineInterpolator
  simp only [List.length_map]
  rw [if_neg (by omega), if_neg (by omega), checkOrder_sorted xs hs]

theorem akima_at_knot (xs ys : List ℚ) (hs : xs.Sorted (· < ·))
    (hlen : xs.length = ys.length) (h5 : 5 ≤ xs.length) (i : ℕ) (hi : i < xs.length) :
    evalAt (createAkimaSplineInterpolator (xs.map some) (ys.map some)) (some (xs.getD i 0))
      = .ok (some (ys.getD i 0)) := by
  rw [createAkimaSplineInterpolator_ok xs ys hs hlen h5,
    interpolateHermiteSorted_ok xs ys _ hs hlen (by omega) (by simp [akimaFirstDerivatives])]
  show splineEval _ _ _ = _
  rw [splineEval_at_knot xs _ i hs hi (by omega) (by simp)]
  rcases (show i < xs.length - 1 ∨ i = xs.length - 1 by omega) with hin | hin
  · have hmin : min i (xs.length - 2) = i := by omega
    rw [hmin, getD_range_map _ _ i (by omega), sub_self]
    obtain ⟨f0, hf0⟩ := akimaFirstDerivatives_some xs ys hs hlen h5 i (by omega)
    obtain ⟨f1, hf1⟩ := akimaFirstDerivatives_some xs ys hs hlen h5 (i + 1) (by omega)
    exact congrArg Except.ok
      (hermite_segment_eval xs ys _ hs hlen i hin f0 f1 hf0 hf1).1
  · have hmin : min i (xs.length - 2) = xs.length - 2 := by omega
    rw [hmin, getD_range_map _ _ (xs.length - 2) (by omega)]
    obtain ⟨f0, hf0⟩ := akimaFirstDerivatives_some xs ys hs hlen h5 (xs.length - 2) (by omega)
    obtain ⟨f1, hf1⟩ := akimaFirstDerivatives_some xs ys hs hlen h5 (xs.length - 1) (by omega)
    have h2 := (hermite_segment_eval xs ys _ hs hlen (xs.length - 2) (by omega) f0 f1 hf0
      (by rw [show xs.length - 2 + 1 = xs.length - 1 by omega]; exact hf1)).2
    rw [show i = xs.length - 2 + 1 from by omega]
    exact congrArg Except.ok h2

end CMI

namespace CMI

theorem nearest_at_knot (xs ys : List ℚ) (hs : xs.Sorted (· < ·))
    (hlen : xs.length = ys.length) (i : ℕ) (hi : i < xs.length) :
    evalAt (createNearestNeighborInterpolator (xs.map some) (ys.map some)) (some (xs.getD i 0))
      = .ok (some (ys.getD i 0)) := by
  rcases (show xs.length = 1 ∨ 2 ≤ xs.length by omega) with h1 | h2
  · unfold createNearestNeighborInterpolator
    simp only [List.length_map]
    rw [if_neg (by omega), if_neg (by omega), if_pos h1]
    show (Except.ok ((ys.map some).getD 0 none) : Except Err Fl) = .ok (some (ys.getD i 0))
    rw [getD_map_some ys 0 (by omega), show i = 0 from by omega]
  · rw [createNearestNeighborInterpolator_ok xs ys hs hlen h2]
    show nearestEval _ _ _ = _
    exact nearestEval_at_knot xs ys i hs hlen hi

theorem linear_at_knot (xs ys : List ℚ) (hs : xs.Sorted (· < ·))
    (hlen : xs.length = ys.length) (h2 : 2 ≤ xs.length) (i : ℕ) (hi : i < xs.length) :
    evalAt (createLinearInterpolator (xs.map some) (ys.map some)) (some (xs.getD i 0))
      = .ok (some (ys.getD i 0)) := by
  rw [createLinearInterpolator_ok xs ys hs hlen h2]
  show splineEval _ _ _ = _
  rw [splineEval_at_knot xs _ i hs hi h2 (by simp)]
  rcases (show i < xs.length - 1 ∨ i = xs.length - 1 by omega) with hin | hin
  · have hmin : min i (xs.length - 2) = i := by omega
    rw [hmin, getD_range_map _ _ i (by omega), linPoly_eval]
    exact congrArg (fun v : ℚ => (Except.ok (some v) : Except Err Fl)) (by ring)
  · have hmin : min i (xs.length - 2) = xs.length - 2 := by omega
    have hne : xs.getD (xs.length - 2 + 1) 0 - xs.getD (xs.length - 2) 0 ≠ 0 :=
      ne_of_gt (sub_pos.mpr (sorted_getD_lt xs hs _ _ (by omega) (by omega)))
    rw [hmin, getD_range_map _ _ (xs.length - 2) (by omega), linPoly_eval,
      show i = xs.length - 2 + 1 from by omega]
    refine congrArg (fun v : ℚ => (Except.ok (some v) : Except Err Fl)) ?_
    simp only [List.getD_eq_getElem?_getD] at hne
    field_simp

/-- C4: for every valid sample set with strictly increasing x, each of the
four constructors returns an evaluator that reproduces y[i] exactly at every
knot x[i] (over exact rational arithmetic); in particular the Akima evaluator
for x = [0..6], y = [0,1,0,1,0,1,0] returns 0 at the queries 0 and 6. -/
theorem C4_interpolates_at_sample_points :
    (∀ xs ys : List ℚ, xs.Sorted (· < ·) → xs.length = ys.length →
      ∀ i, i < xs.length →
      evalAt (createNearestNeighborInterpolator (xs.map some) (ys.map some))
        (some (xs.getD i 0)) = .ok (some (ys.getD i 0))) ∧
    (∀ xs ys : List ℚ, xs.Sorted (· < ·) → xs.length = ys.length → 2 ≤ xs.length →
      ∀ i, i < xs.length →
      evalAt (createLinearInterpolator (xs.map some) (ys.map some))
        (some (xs.getD i 0)) = .ok (some (ys.getD i 0))) ∧
    (∀ xs ys : List ℚ, xs.Sorted (· < ·) → xs.length = ys.length → 3 ≤ xs.length →
      ∀ i, i < xs.length →
      evalAt (createCubicSplineInterpolator (xs.map some) (ys.map some))
        (some (xs.getD i 0)) = .ok (some (ys.getD i 0))) ∧
    (∀ xs ys : List ℚ, xs.Sorted (· < ·) → xs.length = ys.length → 5 ≤ xs.length →
      ∀ i, i < xs.length →
      evalAt (createAkimaSplineInterpolator (xs.map some) (ys.map some))
        (some (xs.getD i 0)) = .ok (some (ys.getD i 0))) ∧
    (evalAt (createAkimaSplineInterpolator
        [some 0, some 1, some 2, some 3, some 4, some 5, some 6]
        [some 0, some 1, some 0, some 1, some 0, some 1, some 0]) (some 0)
      = .ok (some 0) ∧
     evalAt (createAkimaSplineInterpolator
        [some 0, some 1, some 2, some 3, some 4, some 5, some 6]
        [some 0, some 1, some 0, some 1, some 0, some 1, some 0]) (some 6)
      = .ok (some 0)) := by
  refine ⟨fun xs ys hs hlen i hi => nearest_at_knot xs ys hs hlen i hi,
    fun xs ys hs hlen h2 i hi => linear_at_knot xs ys hs hlen h2 i hi,
    fun xs ys hs hlen h3 i hi => cubic_at_knot xs ys hs hlen h3 i hi,
    fun xs ys hs hlen h5 i hi => akima_at_knot xs ys hs hlen h5 i hi, ?_, ?_⟩
  · have h := akima_at_knot [0, 1, 2, 3, 4, 5, 6] [0, 1, 0, 1, 0, 1, 0]
      (by norm_num [List.sorted_cons]) (by norm_num) (by norm_num) 0 (by norm_num)
    simp only [List.map_cons, List.map_nil] at h
    norm_num [List.getD_cons_zero, List.getD_cons_succ] at h
    exact h
  · have h := akima_at_knot [0, 1, 2, 3, 4, 5, 6] [0, 1, 0, 1, 0, 1, 0]
      (by norm_num [List.sorted_cons]) (by norm_num) (by norm_num) 6 (by norm_num)
    simp only [List.map_cons, List.map_nil] at h
    norm_num [List.getD_cons_zero, List.getD_cons_succ] at h
    exact h

/-- Witness for C4: knot reproduction at concrete inputs for all four
constructors. -/
theorem C4_interpolates_at_sample_points_witness :
    evalAt (createNearestNeighborInterpolator [some 0, some 1] [some 2, some 3]) (some 1)
      = .ok (some 3) ∧
    evalAt (createLinearInterpolator [some 0, some 2] [some 0, some 10]) (some 2)
      = .ok (some 10) ∧
    evalAt (createCubicSplineInterpolator [some 0, some 1, some 2] [some 0, some 1, some 0])
      (some 1) = .ok (some 1) ∧
    evalAt (createAkimaSplineInterpolator
      [some 0, some 1, some 2, some 3, some 4, some 5, some 6]
      [some 0, some 1, some 0, some 1, some 0, some 1, some 0]) (some 3) = .ok (some 1) := by
  refine ⟨?_, ?_, ?_, ?_⟩
  · have h := C4_interpolates_at_sample_points.1 [0, 1] [2, 3]
      (by norm_num [List.sorted_cons]) (by norm_num) 1 (by norm_num)
    simp only [List.map_cons, List.map_nil] at h
    norm_num [List.getD_cons_zero, List.getD_cons_succ] at h
    exact h
  · have h := C4_interpolates_at_sample_points.2.1 [0, 2] [0, 10]
      (by norm_num [List.sorted_cons]) (by norm_num) (by norm_num) 1 (by norm_num)
    simp only [List.map_cons, List.map_nil] at h
    norm_num [List.getD_cons_zero, List.getD_cons_succ] at h
    exact h
  · have h := C4_interpolates_at_sample_points.2.2.1 [0, 1, 2] [0, 1, 0]
      (by norm_num [List.sorted_cons]) (by norm_num) (by norm_num) 1 (by norm_num)
    simp only [List.map_cons, List.map_nil] at h
    norm_num [List.getD_cons_zero, List.getD_cons_succ] at h
    exact h
  · have h := C4_interpolates_at_sample_points.2.2.2.1 [0, 1, 2, 3, 4, 5, 6]
      [0, 1, 0, 1, 0, 1, 0]
      (by norm_num [List.sorted_cons]) (by norm_num) (by norm_num) 3 (by norm_num)
    simp only [List.map_cons, List.map_nil] at h
    norm_num [List.getD_cons_zero, List.getD_cons_succ] at h
    exact h

end CMI
